import Mathlib

/-! Verification of `service/vod/base_service.go`.

A shallow embedding of the upload / commit / playback-token flow of the VOD
client.

* Go strings are modelled as `String`, that is as Unicode text; `[]byte(s)` is
  the UTF-8 encoding of the text. Byte slices are `List Byte`, Go `int` is
  `Int`, and `uint32` is `Nat` reduced modulo `2 ^ 32` where the code could
  overflow.
* Pointers to messages are `Option`s and the generated getters are nil-safe.
* Calls to collaborators (the apply and commit APIs, the signer, the HTTP
  transport) and to library services whose result depends on data outside this
  file are fields of `Deps`. Every call to a collaborator is recorded in a
  trace, so that "no call is made" is a statement about that trace.
* A Go run-time panic (nil dereference, index out of range, explicit `panic`)
  is the `Exec.panic` outcome.
-/

namespace Vod

/-! ## Basic types -/

/-- One octet of a Go `[]byte`. -/
abbrev Byte := Fin 256

/-- A Go `error` value, identified by its message. -/
structure GoError where
  msg : String
deriving DecidableEq, Repr

/-- Outcome of running a Go function: it returns a value or it panics. -/
inductive Exec (α : Type) where
  | ret (v : α)
  | panic (msg : String)
deriving DecidableEq, Repr

/-- Constant `http.StatusBadRequest`. -/
def StatusBadRequest : Int := 400

/-- Constant `http.StatusOK`. -/
def StatusOK : Int := 200

/-- Message of the run-time panic raised by dereferencing a nil pointer. -/
def nilDereference : String :=
  "runtime error: invalid memory address or nil pointer dereference"

/-- Message of the run-time panic raised by `xs[i]` with `i ≥ len(xs)`. -/
def indexOutOfRange (i len : Nat) : String :=
  "runtime error: index out of range [" ++ Nat.repr i ++ "] with length " ++ Nat.repr len

/-- Function `strconv.Itoa`: the decimal rendering of a Go `int`. -/
def Itoa (i : Int) : String :=
  match i with
  | Int.ofNat n => Nat.repr n
  | Int.negSucc n => "-" ++ Nat.repr (n + 1)

/-! ## Request and response messages (`models/vod/request`, `models/vod/response`)

The message types are generated protobuf structs: every nested message is a
pointer that may be nil, and every getter is nil-safe. -/

/-- Message `request.VodApplyUploadInfoRequest` (the field the code sets). -/
structure VodApplyUploadInfoRequest where
  SpaceName : String
deriving DecidableEq, Repr

/-- Message `request.VodCommitUploadInfoRequest`. -/
structure VodCommitUploadInfoRequest where
  SpaceName : String
  SessionKey : String
  CallbackArgs : String
  Functions : String
deriving DecidableEq, Repr

/-- The embedded error of a response's metadata. -/
structure ResponseError where
  Code : String
  Message : String
deriving DecidableEq, Repr

/-- Metadata of a response; `Error` is a pointer. -/
structure ResponseMetadata where
  Error : Option ResponseError
deriving DecidableEq, Repr

/-- Message `VodStoreInfo`: object identifier and per-object authorization. -/
structure VodStoreInfo where
  StoreUri : String
  Auth : String
deriving DecidableEq, Repr

/-- Message `VodUploadAddress`. `StoreInfos` is a slice of pointers. -/
structure VodUploadAddress where
  StoreInfos : List (Option VodStoreInfo)
  UploadHosts : List String
  SessionKey : String
deriving DecidableEq, Repr

/-- Message `VodApplyUploadInfoResult.Data`. -/
structure VodApplyUploadInfoData where
  UploadAddress : Option VodUploadAddress
deriving DecidableEq, Repr

/-- Message `VodApplyUploadInfoResult`. -/
structure VodApplyUploadInfoResult where
  Data : Option VodApplyUploadInfoData
deriving DecidableEq, Repr

/-- Message `response.VodApplyUploadInfoResponse`. -/
structure VodApplyUploadInfoResponse where
  ResponseMetadata : Option ResponseMetadata
  Result : Option VodApplyUploadInfoResult
deriving DecidableEq, Repr

/-- Message `response.VodCommitUploadInfoResponse`; its content is not inspected
by the code in this file. -/
structure VodCommitUploadInfoResponse where
  body : String
deriving DecidableEq, Repr

/-- Nil-safe getter `(*VodApplyUploadInfoResponse).GetResult`. -/
def GetResult (r : Option VodApplyUploadInfoResponse) : Option VodApplyUploadInfoResult :=
  match r with
  | some x => x.Result
  | none => none

/-- Nil-safe getter `(*VodApplyUploadInfoResult).GetData`. -/
def GetData (r : Option VodApplyUploadInfoResult) : Option VodApplyUploadInfoData :=
  match r with
  | some x => x.Data
  | none => none

/-- Nil-safe getter `(*VodApplyUploadInfoData).GetUploadAddress`. -/
def GetUploadAddress (r : Option VodApplyUploadInfoData) : Option VodUploadAddress :=
  match r with
  | some x => x.UploadAddress
  | none => none

/-- Nil-safe getter `(*VodUploadAddress).GetUploadHosts`. -/
def GetUploadHosts (a : Option VodUploadAddress) : List String :=
  match a with
  | some x => x.UploadHosts
  | none => []

/-- Nil-safe getter `(*VodUploadAddress).GetStoreInfos`. -/
def GetStoreInfos (a : Option VodUploadAddress) : List (Option VodStoreInfo) :=
  match a with
  | some x => x.StoreInfos
  | none => []

/-- Nil-safe getter `(*VodUploadAddress).GetSessionKey`. -/
def GetSessionKey (a : Option VodUploadAddress) : String :=
  match a with
  | some x => x.SessionKey
  | none => ""

/-- Nil-safe getter `(*VodStoreInfo).GetStoreUri`. -/
def GetStoreUri (s : Option VodStoreInfo) : String :=
  match s with
  | some x => x.StoreUri
  | none => ""

/-- Nil-safe getter `(*VodStoreInfo).GetAuth`. -/
def GetAuth (s : Option VodStoreInfo) : String :=
  match s with
  | some x => x.Auth
  | none => ""

/-! ## HTTP requests and responses (`net/http`) -/

/-- An `http.Header`: header names with their value. Go stores a name under its
canonical MIME form and looks it up under the same form, so names are compared
as written here. -/
abbrev Header := List (String × String)

/-- Method `Header.Set`: replace the value of `key`, or add the entry. -/
def Header.Set (h : Header) (key value : String) : Header :=
  match h with
  | [] => [(key, value)]
  | (k, v) :: rest => if k = key then (k, value) :: rest else (k, v) :: Header.Set rest key value

/-- Method `Header.Get`: the value of `key`, `""` when absent. -/
def Header.Get (h : Header) (key : String) : String :=
  match h with
  | [] => ""
  | (k, v) :: rest => if k = key then v else Header.Get rest key

/-- The parts of an `http.Request` the code sets or reads. -/
structure HttpRequest where
  Method : String
  URL : String
  Host : String
  Header : Header
  Body : List Byte
deriving DecidableEq, Repr

/-- The parts of an `http.Response` the code reads; `Body` is the whole body. -/
structure HttpResponse where
  StatusCode : Int
  Body : String
deriving DecidableEq, Repr

/-- The envelope decoded from the transfer response. `Payload` stands for the
decoded `interface{}` value, which the code only ever prints. -/
structure TosResp where
  Success : Int
  Payload : String
deriving DecidableEq, Repr

/-- A post-processing directive (`Function` of this package: a name and an
input of arbitrary type, given here in its wire rendering). -/
structure Function where
  Name : String
  Input : String
deriving DecidableEq, Repr

/-- A `url.Values`: keys with their list of values, in insertion order. -/
abbrev Values := List (String × List String)

/-- Method `Values.Add`: `v[key] = append(v[key], value)`. -/
def Values.Add (v : Values) (key value : String) : Values :=
  match v with
  | [] => [(key, [value])]
  | (k, vs) :: rest =>
    if k = key then (k, vs ++ [value]) :: rest else (k, vs) :: Values.Add rest key value

/-- Message `request.VodGetPlayInfoRequest` (the fields the code reads). -/
structure VodGetPlayInfoRequest where
  Vid : String
  Definition : String
  FileType : String
  Codec : String
  Format : String
  Base64 : String
  LogoType : String
  Ssl : String
deriving DecidableEq, Repr

/-! ## Collaborators and traces -/

/-- A call made to a collaborator. -/
inductive Event where
  | apply (req : VodApplyUploadInfoRequest)
  | put (req : HttpRequest)
  | commit (req : VodCommitUploadInfoRequest)
  | sign (action : String) (query : Values)
deriving DecidableEq, Repr

/-- A run of a function: its outcome and the collaborator calls it made. -/
structure Run (α : Type) where
  out : Exec α
  trace : List Event
deriving DecidableEq, Repr

/-- The collaborators and library services the code calls into, one field per
call site. Each returns what the Go call returns. -/
structure Deps where
  /-- Method `Vod.ApplyUploadInfo`: response pointer, status code, error. -/
  ApplyUploadInfo : VodApplyUploadInfoRequest →
    Option VodApplyUploadInfoResponse × Int × Option GoError
  /-- Method `Vod.CommitUploadInfo`: response pointer, status code, error. -/
  CommitUploadInfo : VodCommitUploadInfoRequest →
    Option VodCommitUploadInfoResponse × Int × Option GoError
  /-- Method `GetSignUrl` of the base client: signed URL and error. -/
  GetSignUrl : String → Values → String × Option GoError
  /-- URL parsing inside `http.NewRequest`: the host of the URL, or an error. -/
  urlParse : String → Except GoError String
  /-- Method `http.Client.Do`. -/
  clientDo : HttpRequest → Except GoError HttpResponse
  /-- Decoding of the transfer response body into the `tosResp` envelope. -/
  jsonDecodeTos : String → Except GoError TosResp
  /-- Rendering of the embedded response error under `%+v`. -/
  fmtResponseError : ResponseError → String
  /-- Encoding of one `Function` by `json.Marshal`. -/
  marshalFunction : Function → Except GoError String

/-! ## CRC-32 (`hash/crc32`) and `%08x` (`fmt`) -/

/-- Constant `crc32.IEEE`, the reflected IEEE polynomial. -/
def IEEE : Nat := 0xedb88320

/-- One entry of `simpleMakeTable`: eight shift/xor rounds on `i`. -/
def simpleTableEntry (poly i : Nat) : Nat :=
  (List.range 8).foldl
    (fun crc _ => if crc &&& 1 = 1 then (crc >>> 1) ^^^ poly else crc >>> 1) i

/-- Function `simpleMakeTable`: the 256-entry table of a polynomial. -/
def simpleMakeTable (poly : Nat) : List Nat :=
  (List.range 256).map (simpleTableEntry poly)

/-- Function `simpleUpdate`: `crc = ^crc`, then for every byte
`crc = tab[byte(crc)^v] ^ (crc >> 8)`, then `^crc`, on `uint32`. -/
def simpleUpdate (crc : Nat) (tab : List Nat) (p : List Byte) : Nat :=
  let crc0 := crc ^^^ 0xffffffff
  let crc1 := p.foldl (fun c v => tab.getD ((c % 256) ^^^ v.val) 0 ^^^ (c >>> 8)) crc0
  crc1 ^^^ 0xffffffff

/-- Function `crc32.ChecksumIEEE`, by the portable table-driven algorithm of the
package (`simpleMakeTable`, `simpleUpdate`); the slicing and hardware variants
compute the same function. -/
def ChecksumIEEE (data : List Byte) : Nat :=
  simpleUpdate 0 (simpleMakeTable IEEE) data

/-- The digit table `ldigits` of package `fmt`, by index. -/
def ldigit (d : Nat) : Char :=
  "0123456789abcdefx".data.getD d '0'

/-- The digit loop of `fmt.fmtInteger` for base 16: digits are written from the
least significant one, `for u >= 16 { ...; u >>= 4 }` then the last digit.
The fuel is the size of the formatter's buffer. -/
def fmtHexLoop : Nat → Nat → List Char → List Char
  | 0, _, acc => acc
  | fuel + 1, u, acc =>
    if u ≥ 16 then fmtHexLoop fuel (u >>> 4) (ldigit (u &&& 0xF) :: acc)
    else ldigit u :: acc

/-- Zero padding of `fmtInteger` up to the requested width. -/
def zeroPad (width : Nat) (ds : List Char) : List Char :=
  List.replicate (width - ds.length) '0' ++ ds

/-- The call `fmt.Sprintf("%08x", u)` for a `uint32` value. -/
def sprintf08x (u : Nat) : String :=
  String.mk (zeroPad 8 (fmtHexLoop 68 (u % 2 ^ 32) []))

/-! ## The upload flow -/

/-- Indexing `xs[i]` of a Go slice inside a run: out of range is a panic. -/
def withIndex {α β : Type} (xs : List α) (i : Nat) (tr : List Event)
    (k : α → Run β) : Run β :=
  match xs.get? i with
  | some x => k x
  | none => ⟨Exec.panic (indexOutOfRange i xs.length), tr⟩

/-- Function `http.NewRequest`: it fails when the URL does not parse, and
otherwise yields a request with no header set. -/
def NewRequest (d : Deps) (method url : String) (body : List Byte) :
    Except GoError HttpRequest :=
  match d.urlParse url with
  | Except.error err => Except.error err
  | Except.ok host =>
    Except.ok { Method := method, URL := url, Host := host, Header := [], Body := body }

/-- What `Upload` returns: object id, session key, error, status code. -/
abbrev UploadResult := String × String × Option GoError × Int

/-- The guard of line 128,
`len(GetStoreInfos()) == 0 && (GetStoreInfos()[0] == nil)`, with Go's
left-to-right short-circuit evaluation: the index expression is evaluated
exactly when the length is zero. -/
def storeInfoGuard (uploadAddress : VodUploadAddress) (tr : List Event)
    (k : Bool → Run UploadResult) : Run UploadResult :=
  if (GetStoreInfos (some uploadAddress)).length = 0 then
    withIndex (GetStoreInfos (some uploadAddress)) 0 tr (fun s => k (decide (s = none)))
  else
    k false

/-- Lines 146–168 of `Upload`: send the request and check the answer. `tr1` is
the trace including the PUT. -/
def transferResult (d : Deps) (req : HttpRequest) (oid sessionKey : String)
    (tr1 : List Event) : Run UploadResult :=
  match d.clientDo req with
  | Except.error err => ⟨Exec.ret ("", "", some err, StatusBadRequest), tr1⟩
  | Except.ok rsp =>
    if rsp.StatusCode ≠ StatusOK then
      ⟨Exec.ret ("", "", some ⟨"http status=" ++ Itoa rsp.StatusCode ++ ", body=" ++ rsp.Body
          ++ ", remote_addr=" ++ req.Host⟩, StatusBadRequest), tr1⟩
    else
      match d.jsonDecodeTos rsp.Body with
      | Except.error err => ⟨Exec.ret ("", "", some err, StatusBadRequest), tr1⟩
      | Except.ok tosResp =>
        if tosResp.Success ≠ 0 then
          ⟨Exec.ret ("", "", some ⟨"tos err:" ++ "\x7bSuccess:" ++ Itoa tosResp.Success
              ++ " Payload:" ++ tosResp.Payload ++ "\x7d"⟩, StatusBadRequest), tr1⟩
        else
          ⟨Exec.ret (oid, sessionKey, none, StatusBadRequest), tr1⟩

/-- Lines 132–145 of `Upload`: build the PUT request, then hand it to the
transport. -/
def uploadTransfer (d : Deps) (fileBytes : List Byte) (uploadAddress : VodUploadAddress)
    (tr : List Event) : Run UploadResult :=
  let checkSum := sprintf08x (ChecksumIEEE fileBytes)
  withIndex (GetUploadHosts (some uploadAddress)) 0 tr fun tosHost =>
  withIndex uploadAddress.StoreInfos 0 tr fun store0 =>
  let oid := GetStoreUri store0
  let sessionKey := GetSessionKey (some uploadAddress)
  withIndex (GetStoreInfos (some uploadAddress)) 0 tr fun store1 =>
  let auth := GetAuth store1
  let url := "http://" ++ tosHost ++ "/" ++ oid
  match NewRequest d "PUT" url fileBytes with
  | Except.error err => ⟨Exec.ret ("", "", some err, StatusBadRequest), tr⟩
  | Except.ok req0 =>
    let req1 := { req0 with Header := req0.Header.Set "Content-CRC32" checkSum }
    let req := { req1 with Header := req1.Header.Set "Authorization" auth }
    transferResult d req oid sessionKey (tr ++ [Event.put req])

/-- Lines 123–170 of `Upload`: validate the upload address, then transfer. -/
def uploadChecked (d : Deps) (fileBytes : List Byte)
    (uploadAddress : Option VodUploadAddress) (tr : List Event) : Run UploadResult :=
  match uploadAddress with
  | some addr =>
    if (GetUploadHosts (some addr)).length = 0 then
      ⟨Exec.ret ("", "", some ⟨"no tos host found"⟩, StatusBadRequest), tr⟩
    else
      storeInfoGuard addr tr fun missing =>
        if missing then
          ⟨Exec.ret ("", "", some ⟨"no store info found"⟩, StatusBadRequest), tr⟩
        else
          uploadTransfer d fileBytes addr tr
  | none => ⟨Exec.ret ("", "", some ⟨"upload address not exist"⟩, StatusBadRequest), tr⟩

/-- Method `Vod.Upload`. -/
def Upload (d : Deps) (fileBytes : List Byte) (spaceName : String) : Run UploadResult :=
  if fileBytes.length = 0 then
    ⟨Exec.ret ("", "", some ⟨"file size is zero"⟩, StatusBadRequest), []⟩
  else
    let applyRequest : VodApplyUploadInfoRequest := { SpaceName := spaceName }
    let tr := [Event.apply applyRequest]
    match d.ApplyUploadInfo applyRequest with
    | (_, code, some err) => ⟨Exec.ret ("", "", some err, code), tr⟩
    | (none, _, none) => ⟨Exec.panic nilDereference, tr⟩
    | (some resp, code, none) =>
      match resp.ResponseMetadata with
      | none => ⟨Exec.panic nilDereference, tr⟩
      | some md =>
        match md.Error with
        | some e =>
          if e.Code ≠ "0" then
            ⟨Exec.ret ("", "", some ⟨d.fmtResponseError e⟩, code), tr⟩
          else
            uploadChecked d fileBytes (GetUploadAddress (GetData (GetResult (some resp)))) tr
        | none =>
          uploadChecked d fileBytes (GetUploadAddress (GetData (GetResult (some resp)))) tr

/-! ## The commit flow -/

/-- A Go slice value: `none` is the nil slice, which `len` and `range` treat as
empty but `json.Marshal` encodes differently. -/
abbrev GoSlice (α : Type) := Option (List α)

/-- Encoding of the elements of a slice, stopping at the first failure. -/
def marshalElems (enc : Function → Except GoError String) :
    List Function → Except GoError (List String)
  | [] => Except.ok []
  | f :: fs =>
    match enc f with
    | Except.error err => Except.error err
    | Except.ok s =>
      match marshalElems enc fs with
      | Except.error err => Except.error err
      | Except.ok ss => Except.ok (s :: ss)

/-- The JSON array text of already encoded elements. -/
def jsonArray (elems : List String) : String :=
  "[" ++ String.intercalate "," elems ++ "]"

/-- The call `json.Marshal(funcs)` on a `[]Function`: a nil slice encodes as
the JSON value `null`, any other slice as a JSON array of its elements. -/
def marshalFuncs (d : Deps) (funcs : GoSlice Function) : Except GoError String :=
  match funcs with
  | none => Except.ok "null"
  | some fs =>
    match marshalElems d.marshalFunction fs with
    | Except.error err => Except.error err
    | Except.ok ss => Except.ok (jsonArray ss)

/-- What `UploadMediaInner` returns: response pointer, status code, error. -/
abbrev CommitResult := Option VodCommitUploadInfoResponse × Int × Option GoError

/-- Method `Vod.UploadMediaInner`. The variadic `funcs` is the nil slice when
the caller passes no function. -/
def UploadMediaInner (d : Deps) (fileBytes : List Byte) (spaceName callbackArgs : String)
    (funcs : GoSlice Function) : Run CommitResult :=
  match Upload d fileBytes spaceName with
  | ⟨Exec.panic m, tr⟩ => ⟨Exec.panic m, tr⟩
  | ⟨Exec.ret (_, _, some err, code), tr⟩ => ⟨Exec.ret (none, code, some err), tr⟩
  | ⟨Exec.ret (_, sessionKey, none, _), tr⟩ =>
    match marshalFuncs d funcs with
    | Except.error err => ⟨Exec.panic err.msg, tr⟩
    | Except.ok fbts =>
      let commitRequest : VodCommitUploadInfoRequest :=
        { SpaceName := spaceName, SessionKey := sessionKey,
          CallbackArgs := callbackArgs, Functions := fbts }
      let tr1 := tr ++ [Event.commit commitRequest]
      match d.CommitUploadInfo commitRequest with
      | (_, code, some err) => ⟨Exec.ret (none, code, some err), tr1⟩
      | (commitResp, code, none) => ⟨Exec.ret (commitResp, code, none), tr1⟩

/-- Method `Vod.UploadMediaWithCallback`. -/
def UploadMediaWithCallback (d : Deps) (fileBytes : List Byte)
    (spaceName callbackArgs : String) (funcs : GoSlice Function) : Run CommitResult :=
  UploadMediaInner d fileBytes spaceName callbackArgs funcs

/-! ## Predicates and sample data used in the statements -/

/-- The apply call succeeded without embedded error: it returned a nil error and
a response whose metadata is present and carries no error object, or one whose
code is `"0"`. These are the responses that pass lines 114–121. -/
def applySucceeded (r : Option VodApplyUploadInfoResponse × Int × Option GoError) : Bool :=
  match r with
  | (some resp, _, none) =>
    match resp.ResponseMetadata with
    | some md =>
      match md.Error with
      | some e => decide (e.Code = "0")
      | none => true
    | none => false
  | _ => false

/-- The upload address carried by what the apply call returned. -/
def appliedAddress (r : Option VodApplyUploadInfoResponse × Int × Option GoError) :
    Option VodUploadAddress :=
  GetUploadAddress (GetData (GetResult r.1))

/-- The PUT request the upload flow is expected to send for a payload, the
first host, the first store info and the host the URL parses to. -/
def expectedPut (fileBytes : List Byte) (h : String) (s : Option VodStoreInfo)
    (host : String) : HttpRequest :=
  { Method := "PUT", URL := "http://" ++ h ++ "/" ++ GetStoreUri s, Host := host,
    Header := [("Content-CRC32", sprintf08x (ChecksumIEEE fileBytes)),
               ("Authorization", GetAuth s)],
    Body := fileBytes }

/-- A sample set of collaborators: apply answers with `addr`, every URL parses
with host `h`, the transport answers `status`, and the decoded envelope has
`success`. -/
def sampleDeps (addr : VodUploadAddress) (status success : Int) : Deps where
  ApplyUploadInfo := fun _ => (some ⟨some ⟨none⟩, some ⟨some ⟨some addr⟩⟩⟩, 200, none)
  CommitUploadInfo := fun _ => (some ⟨"committed"⟩, 200, none)
  GetSignUrl := fun action _ => ("https://vod.example/?Action=" ++ action ++ "&X-Signature=ab", none)
  urlParse := fun _ => Except.ok "h"
  clientDo := fun _ => Except.ok ⟨status, "body"⟩
  jsonDecodeTos := fun _ => Except.ok ⟨success, "<nil>"⟩
  fmtResponseError := fun e => e.Code ++ ":" ++ e.Message
  marshalFunction := fun f => Except.ok ("\x7b\"Name\":\"" ++ f.Name ++ "\"\x7d")

/-- The sample collaborators with an encoder that rejects every function spec,
as `json.Marshal` does for an input it cannot serialize. -/
def rejectingDeps : Deps where
  ApplyUploadInfo := fun _ =>
    (some ⟨some ⟨none⟩, some ⟨some ⟨some ⟨[some ⟨"o123", "A1"⟩], ["h"], "s1"⟩⟩⟩⟩, 200, none)
  CommitUploadInfo := fun _ => (some ⟨"committed"⟩, 200, none)
  GetSignUrl := fun _ _ => ("", none)
  urlParse := fun _ => Except.ok "h"
  clientDo := fun _ => Except.ok ⟨200, "body"⟩
  jsonDecodeTos := fun _ => Except.ok ⟨0, "<nil>"⟩
  fmtResponseError := fun e => e.Code ++ ":" ++ e.Message
  marshalFunction := fun _ => Except.error ⟨"json: unsupported type"⟩

/-- The address of the end-to-end example of the specification. -/
def sampleAddress : VodUploadAddress :=
  { StoreInfos := [some ⟨"o123", "A1"⟩], UploadHosts := ["h"], SessionKey := "s1" }

/-- The bytes of `"hello"`. -/
def helloBytes : List Byte := [104, 101, 108, 108, 111]

/-- The commit requests among the calls of a trace, in order. -/
def commitCalls (tr : List Event) : List VodCommitUploadInfoRequest :=
  tr.filterMap fun e =>
    match e with
    | Event.commit c => some c
    | _ => none

/-! ## Reference definitions for the checksum header -/

/-- One bit round of the reflected CRC-32 with polynomial `0xEDB88320`. -/
def crcBitRound (c : Nat) : Nat :=
  if c % 2 = 1 then (c / 2) ^^^ 0xEDB88320 else c / 2

/-- One byte of the bitwise CRC-32: xor the byte into the low bits, then eight
bit rounds. -/
def crcByteRound (c : Nat) (b : Byte) : Nat :=
  crcBitRound^[8] (c ^^^ b.val)

/-- The IEEE CRC-32 of a byte sequence, bit by bit: initial value `0xFFFFFFFF`,
final xor `0xFFFFFFFF`. -/
def crc32Bitwise (data : List Byte) : Nat :=
  data.foldl crcByteRound 0xFFFFFFFF ^^^ 0xFFFFFFFF

/-- Value of one lowercase hexadecimal digit. -/
def hexDigitValue (c : Char) : Option Nat :=
  if '0' ≤ c ∧ c ≤ '9' then some (c.toNat - '0'.toNat)
  else if 'a' ≤ c ∧ c ≤ 'f' then some (c.toNat - 'a'.toNat + 10)
  else none

/-- Reading of a digit sequence in base 16, most significant digit first,
continuing from the value `v`. -/
def hexFold (v : Nat) : List Char → Option Nat
  | [] => some v
  | c :: cs =>
    match hexDigitValue c with
    | some x => hexFold (v * 16 + x) cs
    | none => none

/-- The number a string of lowercase hexadecimal digits denotes. -/
def hexValue (s : String) : Option Nat :=
  hexFold 0 s.data

/-! ## Text encodings used by the playback token (`encoding/json`,
`encoding/base64`, and the UTF-8 bytes of a Go string) -/

/-- The byte with the given value (values are reduced modulo 256). -/
def byteOfNat (n : Nat) : Byte :=
  ⟨n % 256, Nat.mod_lt n (by decide)⟩

/-- The UTF-8 bytes of one character. -/
def utf8EncodeChar (c : Char) : List Byte :=
  let v := c.toNat
  if v < 0x80 then [byteOfNat v]
  else if v < 0x800 then [byteOfNat (0xC0 + v / 64), byteOfNat (0x80 + v % 64)]
  else if v < 0x10000 then
    [byteOfNat (0xE0 + v / 4096), byteOfNat (0x80 + v / 64 % 64), byteOfNat (0x80 + v % 64)]
  else
    [byteOfNat (0xF0 + v / 262144), byteOfNat (0x80 + v / 4096 % 64),
     byteOfNat (0x80 + v / 64 % 64), byteOfNat (0x80 + v % 64)]

/-- The bytes of a Go string holding the given text. -/
def utf8Encode (cs : List Char) : List Byte :=
  cs.flatMap utf8EncodeChar

/-- The hexadecimal digit table `hex` of package `encoding/json`. -/
def jsonHex (d : Nat) : Char :=
  "0123456789abcdef".data.getD d '0'

/-- The escaping of one character by `json.Marshal` (HTML escaping on, as it
is by default): `"` and `\` get a backslash, newline, carriage return and tab
their short escape, the other control characters and `<`, `>`, `&` the form
`\u00XX`, the separators U+2028 and U+2029 the form `\u202X`, and every other
character is copied. -/
def jsonEscapeChar (c : Char) : List Char :=
  if c = '"' then ['\\', '"']
  else if c = '\\' then ['\\', '\\']
  else if c = '\n' then ['\\', 'n']
  else if c = '\r' then ['\\', 'r']
  else if c = '\t' then ['\\', 't']
  else if c.toNat < 0x20 ∨ c = '<' ∨ c = '>' ∨ c = '&' then
    ['\\', 'u', '0', '0', jsonHex (c.toNat / 16), jsonHex (c.toNat % 16)]
  else if c.toNat = 0x2028 ∨ c.toNat = 0x2029 then
    ['\\', 'u', '2', '0', '2', jsonHex (c.toNat % 16)]
  else [c]

/-- The JSON string literal `json.Marshal` writes for a Go string. -/
def jsonString (s : String) : List Char :=
  '"' :: s.data.flatMap jsonEscapeChar ++ ['"']

/-- Insertion of a map entry by increasing key. -/
def insertByKey (e : String × String) : List (String × String) → List (String × String)
  | [] => [e]
  | x :: xs => if e.1.data < x.1.data then e :: x :: xs else x :: insertByKey e xs

/-- The entries of a map in increasing key order, the order in which
`json.Marshal` writes a map. -/
def sortByKey (m : List (String × String)) : List (String × String) :=
  m.foldr insertByKey []

/-- The members of a JSON object, comma separated. -/
def jsonMembers : List (String × String) → List Char
  | [] => []
  | [e] => jsonString e.1 ++ ':' :: jsonString e.2
  | e :: es => jsonString e.1 ++ ':' :: jsonString e.2 ++ ',' :: jsonMembers es

/-- The call `json.Marshal(m)` on a `map[string]string`, as text; it cannot
fail. -/
def jsonMarshalMap (m : List (String × String)) : List Char :=
  '{' :: jsonMembers (sortByKey m) ++ ['}']

/-- Assignment `m[key] = value` on a `map[string]string`. -/
def mapSet (m : List (String × String)) (key value : String) : List (String × String) :=
  match m with
  | [] => [(key, value)]
  | (k, v) :: rest => if k = key then (k, value) :: rest else (k, v) :: mapSet rest key value

/-- The alphabet of `base64.StdEncoding`, by index. -/
def encodeStd (n : Nat) : Char :=
  "ABCDEFGHIJKLMNOPQRSTUVWXYZabcdefghijklmnopqrstuvwxyz0123456789+/".data.getD n 'A'

/-- The call `base64.StdEncoding.EncodeToString`: three bytes give the 24-bit
value `val` and four digits `val>>18&0x3F`, `val>>12&0x3F`, `val>>6&0x3F`,
`val&0x3F`; a remainder of one or two bytes gives two or three digits and `=`
padding. Shifts and masks are written as divisions and remainders. -/
def base64Encode : List Byte → List Char
  | [] => []
  | [a] =>
    let val := a.val * 65536
    [encodeStd (val / 262144 % 64), encodeStd (val / 4096 % 64), '=', '=']
  | [a, b] =>
    let val := a.val * 65536 + b.val * 256
    [encodeStd (val / 262144 % 64), encodeStd (val / 4096 % 64), encodeStd (val / 64 % 64), '=']
  | a :: b :: c :: rest =>
    let val := a.val * 65536 + b.val * 256 + c.val
    encodeStd (val / 262144 % 64) :: encodeStd (val / 4096 % 64) :: encodeStd (val / 64 % 64)
      :: encodeStd (val % 64) :: base64Encode rest

/-! ## The playback token -/

/-- Nil-safe getter `GetVid`. -/
def GetVid (r : Option VodGetPlayInfoRequest) : String :=
  match r with
  | some x => x.Vid
  | none => ""

/-- Nil-safe getter `GetDefinition`. -/
def GetDefinition (r : Option VodGetPlayInfoRequest) : String :=
  match r with
  | some x => x.Definition
  | none => ""

/-- Nil-safe getter `GetFileType`. -/
def GetFileType (r : Option VodGetPlayInfoRequest) : String :=
  match r with
  | some x => x.FileType
  | none => ""

/-- Nil-safe getter `GetCodec`. -/
def GetCodec (r : Option VodGetPlayInfoRequest) : String :=
  match r with
  | some x => x.Codec
  | none => ""

/-- Nil-safe getter `GetFormat`. -/
def GetFormat (r : Option VodGetPlayInfoRequest) : String :=
  match r with
  | some x => x.Format
  | none => ""

/-- Nil-safe getter `GetBase64`. -/
def GetBase64 (r : Option VodGetPlayInfoRequest) : String :=
  match r with
  | some x => x.Base64
  | none => ""

/-- Nil-safe getter `GetLogoType`. -/
def GetLogoType (r : Option VodGetPlayInfoRequest) : String :=
  match r with
  | some x => x.LogoType
  | none => ""

/-- Nil-safe getter `GetSsl`. -/
def GetSsl (r : Option VodGetPlayInfoRequest) : String :=
  match r with
  | some x => x.Ssl
  | none => ""

/-- One statement `if len(value) > 0 { query.Add(key, value) }` of lines
27–47. A Go string has length zero exactly when it is empty. -/
def addIfSet (query : Values) (key value : String) : Values :=
  if value.length > 0 then query.Add key value else query

/-- Lines 24–50 of `GetPlayAuthToken`: the query built from the request and the
expiry. -/
def playInfoQuery (req : Option VodGetPlayInfoRequest) (tokenExpireTime : Int) : Values :=
  let query : Values := [("Vid", [GetVid req])]
  let query := addIfSet query "Definition" (GetDefinition req)
  let query := addIfSet query "FileType" (GetFileType req)
  let query := addIfSet query "Codec" (GetCodec req)
  let query := addIfSet query "Format" (GetFormat req)
  let query := addIfSet query "Base64" (GetBase64 req)
  let query := addIfSet query "LogoType" (GetLogoType req)
  let query := addIfSet query "Ssl" (GetSsl req)
  if tokenExpireTime > 0 then query.Add "X-Expires" (Itoa tokenExpireTime) else query

/-- Method `Vod.GetPlayAuthToken`: token and error. -/
def GetPlayAuthToken (d : Deps) (req : Option VodGetPlayInfoRequest) (tokenExpireTime : Int) :
    Run (String × Option GoError) :=
  if (GetVid req).length = 0 then
    ⟨Exec.ret ("", some ⟨"传入的Vid为空"⟩), []⟩
  else
    let query := playInfoQuery req tokenExpireTime
    let tr := [Event.sign "GetPlayInfo" query]
    match d.GetSignUrl "GetPlayInfo" query with
    | (getPlayInfoToken, none) =>
      let ret0 : List (String × String) := []
      let ret1 := mapSet ret0 "GetPlayInfoToken" getPlayInfoToken
      let ret2 := mapSet ret1 "TokenVersion" "V2"
      let b := utf8Encode (jsonMarshalMap ret2)
      ⟨Exec.ret (String.mk (base64Encode b), none), tr⟩
    | (_, some err) => ⟨Exec.ret ("", some err), tr⟩

/-- The query entry of an optional field: present exactly when `c` holds. -/
def optEntry (c : Bool) (key value : String) : Values :=
  if c then [(key, [value])] else []

/-- The query expected from a request: `Vid`, then one entry per populated
optional field, then `X-Expires` for a positive expiry. -/
def expectedQuery (req : Option VodGetPlayInfoRequest) (tokenExpireTime : Int) : Values :=
  [("Vid", [GetVid req])]
    ++ optEntry (decide (GetDefinition req ≠ "")) "Definition" (GetDefinition req)
    ++ optEntry (decide (GetFileType req ≠ "")) "FileType" (GetFileType req)
    ++ optEntry (decide (GetCodec req ≠ "")) "Codec" (GetCodec req)
    ++ optEntry (decide (GetFormat req ≠ "")) "Format" (GetFormat req)
    ++ optEntry (decide (GetBase64 req ≠ "")) "Base64" (GetBase64 req)
    ++ optEntry (decide (GetLogoType req ≠ "")) "LogoType" (GetLogoType req)
    ++ optEntry (decide (GetSsl req ≠ "")) "Ssl" (GetSsl req)
    ++ optEntry (decide (0 < tokenExpireTime)) "X-Expires" (Itoa tokenExpireTime)

/-! ## Readers for the playback token: base64, UTF-8 and JSON -/

/-- Index of a digit of the standard base64 alphabet. -/
def decodeStd (c : Char) : Option Nat :=
  if 'A' ≤ c ∧ c ≤ 'Z' then some (c.toNat - 65)
  else if 'a' ≤ c ∧ c ≤ 'z' then some (c.toNat - 97 + 26)
  else if '0' ≤ c ∧ c ≤ '9' then some (c.toNat - 48 + 52)
  else if c = '+' then some 62
  else if c = '/' then some 63
  else none

/-- Standard base64 decoding with mandatory `=` padding: groups of four digits
give three bytes; a final group may end in `=` or `==`. -/
def base64Decode : List Char → Option (List Byte)
  | [] => some []
  | c0 :: c1 :: c2 :: c3 :: rest =>
    match decodeStd c0, decodeStd c1 with
    | some v0, some v1 =>
      if c2 = '=' then
        if c3 = '=' ∧ rest = [] then some [byteOfNat (v0 * 4 + v1 / 16)] else none
      else
        match decodeStd c2 with
        | none => none
        | some v2 =>
          if c3 = '=' then
            if rest = [] then
              some [byteOfNat (v0 * 4 + v1 / 16), byteOfNat (v1 % 16 * 16 + v2 / 4)]
            else none
          else
            match decodeStd c3 with
            | none => none
            | some v3 =>
              match base64Decode rest with
              | none => none
              | some bs =>
                some (byteOfNat (v0 * 4 + v1 / 16) :: byteOfNat (v1 % 16 * 16 + v2 / 4)
                  :: byteOfNat (v2 % 4 * 64 + v3) :: bs)
    | _, _ => none
  | _ => none

/-- A UTF-8 continuation byte. -/
def isContinuation (b : Byte) : Bool :=
  decide (0x80 ≤ b.val ∧ b.val < 0xC0)

/-- A Unicode scalar value: a code point that is not a surrogate. -/
def isScalar (v : Nat) : Bool :=
  decide (v < 0xD800 ∨ (0xDFFF < v ∧ v < 0x110000))

/-- Decoding of the first UTF-8 sequence of a byte string: the character and the
remaining bytes. Overlong forms, surrogates and truncated sequences are
rejected. -/
def utf8DecodeChar : List Byte → Option (Char × List Byte)
  | [] => none
  | b0 :: rest =>
    if b0.val < 0x80 then some (Char.ofNat b0.val, rest)
    else if b0.val < 0xC0 then none
    else if b0.val < 0xE0 then
      match rest with
      | b1 :: rest1 =>
        if isContinuation b1 ∧ 0x80 ≤ (b0.val - 0xC0) * 64 + (b1.val - 0x80) then
          some (Char.ofNat ((b0.val - 0xC0) * 64 + (b1.val - 0x80)), rest1)
        else none
      | _ => none
    else if b0.val < 0xF0 then
      match rest with
      | b1 :: b2 :: rest2 =>
        if isContinuation b1 ∧ isContinuation b2 ∧
            0x800 ≤ ((b0.val - 0xE0) * 64 + (b1.val - 0x80)) * 64 + (b2.val - 0x80) ∧
            isScalar (((b0.val - 0xE0) * 64 + (b1.val - 0x80)) * 64 + (b2.val - 0x80)) then
          some (Char.ofNat (((b0.val - 0xE0) * 64 + (b1.val - 0x80)) * 64
            + (b2.val - 0x80)), rest2)
        else none
      | _ => none
    else if b0.val < 0xF8 then
      match rest with
      | b1 :: b2 :: b3 :: rest3 =>
        if isContinuation b1 ∧ isContinuation b2 ∧ isContinuation b3 ∧
            0x10000 ≤ (((b0.val - 0xF0) * 64 + (b1.val - 0x80)) * 64 + (b2.val - 0x80)) * 64
              + (b3.val - 0x80) ∧
            isScalar ((((b0.val - 0xF0) * 64 + (b1.val - 0x80)) * 64 + (b2.val - 0x80)) * 64
              + (b3.val - 0x80)) then
          some (Char.ofNat ((((b0.val - 0xF0) * 64 + (b1.val - 0x80)) * 64
            + (b2.val - 0x80)) * 64 + (b3.val - 0x80)), rest3)
        else none
      | _ => none
    else none

/-- Decoding of a whole byte string, one sequence per unit of fuel. -/
def utf8DecodeLoop : Nat → List Byte → Option (List Char)
  | _, [] => some []
  | 0, _ :: _ => none
  | fuel + 1, b :: bs =>
    match utf8DecodeChar (b :: bs) with
    | none => none
    | some (c, rest) => (utf8DecodeLoop fuel rest).map (fun cs => c :: cs)

/-- UTF-8 decoding of a byte string; every sequence takes at least one byte, so
the length of the input is enough fuel. -/
def utf8Decode (bs : List Byte) : Option (List Char) :=
  utf8DecodeLoop bs.length bs

/-- Value of a hexadecimal digit of a JSON `\u` escape (either case). -/
def jsonHexValue (c : Char) : Option Nat :=
  if '0' ≤ c ∧ c ≤ '9' then some (c.toNat - 48)
  else if 'a' ≤ c ∧ c ≤ 'f' then some (c.toNat - 97 + 10)
  else if 'A' ≤ c ∧ c ≤ 'F' then some (c.toNat - 65 + 10)
  else none

/-- The character a one-letter JSON escape stands for. -/
def jsonUnescape (e : Char) : Option Char :=
  if e = '"' then some '"'
  else if e = '\\' then some '\\'
  else if e = '/' then some '/'
  else if e = 'b' then some (Char.ofNat 8)
  else if e = 'f' then some (Char.ofNat 12)
  else if e = 'n' then some '\n'
  else if e = 'r' then some '\r'
  else if e = 't' then some '\t'
  else none

/-- Reading of one element of a JSON string after its opening quote: the
closing quote (`none`) or one character, and what follows. Raw control
characters and `\u` escapes of surrogate halves are rejected. -/
def parseStringElem : List Char → Option (Option Char × List Char)
  | [] => none
  | c :: rest =>
    if c = '"' then some (none, rest)
    else if c = '\\' then
      match rest with
      | e :: rest1 =>
        if e = 'u' then
          match rest1 with
          | h1 :: h2 :: h3 :: h4 :: rest2 =>
            match jsonHexValue h1, jsonHexValue h2, jsonHexValue h3, jsonHexValue h4 with
            | some x1, some x2, some x3, some x4 =>
              if isScalar (((x1 * 16 + x2) * 16 + x3) * 16 + x4) then
                some (some (Char.ofNat (((x1 * 16 + x2) * 16 + x3) * 16 + x4)), rest2)
              else none
            | _, _, _, _ => none
          | _ => none
        else
          match jsonUnescape e with
          | some x => some (some x, rest1)
          | none => none
      | [] => none
    else if c.toNat < 0x20 then none
    else some (some c, rest)

/-- Reading of a JSON string body, one element per unit of fuel: the text and
what follows the closing quote. -/
def parseStringLoop : Nat → List Char → Option (List Char × List Char)
  | 0, _ => none
  | fuel + 1, cs =>
    match parseStringElem cs with
    | none => none
    | some (none, rest) => some ([], rest)
    | some (some c, rest) => (parseStringLoop fuel rest).map (fun p => (c :: p.1, p.2))

/-- Reading of a JSON string after its opening quote; every element takes at
least one character, so the length of the input is enough fuel. -/
def parseStringBody (cs : List Char) : Option (List Char × List Char) :=
  parseStringLoop cs.length cs

/-- JSON insignificant whitespace. -/
def isJsonSpace (c : Char) : Bool :=
  decide (c = ' ' ∨ c = '\n' ∨ c = '\r' ∨ c = '\t')

/-- Removal of leading whitespace. -/
def skipSpace (cs : List Char) : List Char :=
  cs.dropWhile isJsonSpace

/-- Reading of a JSON string (with its quotes) after optional whitespace. -/
def parseString (cs : List Char) : Option (String × List Char) :=
  match skipSpace cs with
  | c :: rest =>
    if c = '"' then (parseStringBody rest).map (fun p => (String.mk p.1, p.2)) else none
  | [] => none

/-- Reading of the members `"key":"value",...` of a JSON object up to and
including the closing brace. The fuel bounds the number of members. -/
def parseMembers : Nat → List Char → Option (List (String × String) × List Char)
  | 0, _ => none
  | fuel + 1, cs =>
    match parseString cs with
    | none => none
    | some (k, r1) =>
      match skipSpace r1 with
      | c1 :: r2 =>
        if c1 = ':' then
          match parseString r2 with
          | none => none
          | some (v, r3) =>
            match skipSpace r3 with
            | c2 :: r4 =>
              if c2 = ',' then
                (parseMembers fuel r4).map (fun p => ((k, v) :: p.1, p.2))
              else if c2 = '}' then some ([(k, v)], r4)
              else none
            | [] => none
        else none
      | [] => none

/-- Reading of a JSON text that is one object whose members are all strings:
the members in document order. -/
def parseStringObject (cs : List Char) : Option (List (String × String)) :=
  match skipSpace cs with
  | c :: r =>
    if c = '{' then
      match skipSpace r with
      | c1 :: r1 =>
        if c1 = '}' then (if skipSpace r1 = [] then some [] else none)
        else
          match parseMembers cs.length (c1 :: r1) with
          | some (ms, r2) => if skipSpace r2 = [] then some ms else none
          | none => none
      | [] => none
    else none
  | [] => none

/-- Reading of a playback token: base64, then UTF-8, then JSON. -/
def readToken (token : String) : Option (List (String × String)) :=
  match base64Decode token.data with
  | none => none
  | some bytes =>
    match utf8Decode bytes with
    | none => none
    | some text => parseStringObject text

/-! ## Reference definitions for the expiry parameter -/

/-- Value of one decimal digit. -/
def decDigitValue (c : Char) : Option Nat :=
  if '0' ≤ c ∧ c ≤ '9' then some (c.toNat - '0'.toNat) else none

/-- Reading of a digit sequence in base 10, most significant digit first,
continuing from the value `v`. -/
def decFold (v : Nat) : List Char → Option Nat
  | [] => some v
  | c :: cs =>
    match decDigitValue c with
    | some x => decFold (v * 10 + x) cs
    | none => none

/-- The number a string of decimal digits denotes; `none` when a character is
not a digit. -/
def decimalValue (s : String) : Option Nat :=
  decFold 0 s.data

/-- A playback request with every optional field populated. -/
def sampleRequest : VodGetPlayInfoRequest :=
  { Vid := "v1", Definition := "720p", FileType := "video", Codec := "h264",
    Format := "mp4", Base64 := "1", LogoType := "mark", Ssl := "1" }

/-! # Theorems -/

/-! ## Shape of the runs of `Upload` -/

theorem Upload_of_applySucceeded (d : Deps) (fileBytes : List Byte) (spaceName : String)
    (hne : fileBytes ≠ []) (hok : applySucceeded (d.ApplyUploadInfo ⟨spaceName⟩) = true) :
    Upload d fileBytes spaceName =
      uploadChecked d fileBytes (appliedAddress (d.ApplyUploadInfo ⟨spaceName⟩))
        [Event.apply ⟨spaceName⟩] := by
  have hlen : fileBytes.length ≠ 0 := by
    intro h; exact hne (List.length_eq_zero.mp h)
  unfold Upload
  rw [if_neg hlen]
  rcases hr : d.ApplyUploadInfo ⟨spaceName⟩ with ⟨resp, code, err⟩
  rw [hr] at hok
  cases resp with
  | none => simp [applySucceeded] at hok
  | some resp =>
    cases err with
    | some e => simp [applySucceeded] at hok
    | none =>
      cases hmd : resp.ResponseMetadata with
      | none => simp [applySucceeded, hmd] at hok
      | some md =>
        cases he : md.Error with
        | none => simp [hr, hmd, he, appliedAddress]
        | some e =>
          have hc : e.Code = "0" := by simpa [applySucceeded, hmd, he] using hok
          simp [hr, hmd, he, hc, appliedAddress]

theorem uploadTransfer_cons (d : Deps) (fileBytes : List Byte) (addr : VodUploadAddress)
    (tr : List Event) (h : String) (hs : List String) (s : Option VodStoreInfo)
    (ss : List (Option VodStoreInfo))
    (hh : addr.UploadHosts = h :: hs) (hst : addr.StoreInfos = s :: ss) :
    uploadTransfer d fileBytes addr tr =
      match d.urlParse ("http://" ++ h ++ "/" ++ GetStoreUri s) with
      | Except.error err => ⟨Exec.ret ("", "", some err, StatusBadRequest), tr⟩
      | Except.ok host =>
        transferResult d
          { Method := "PUT", URL := "http://" ++ h ++ "/" ++ GetStoreUri s, Host := host,
            Header := [("Content-CRC32", sprintf08x (ChecksumIEEE fileBytes)),
                       ("Authorization", GetAuth s)],
            Body := fileBytes }
          (GetStoreUri s) addr.SessionKey
          (tr ++ [Event.put
            { Method := "PUT", URL := "http://" ++ h ++ "/" ++ GetStoreUri s, Host := host,
              Header := [("Content-CRC32", sprintf08x (ChecksumIEEE fileBytes)),
                         ("Authorization", GetAuth s)],
              Body := fileBytes }]) := by
  simp only [uploadTransfer, withIndex, GetUploadHosts, GetStoreInfos, GetSessionKey, hh, hst,
    List.get?_cons_zero, NewRequest]
  cases d.urlParse ("http://" ++ h ++ "/" ++ GetStoreUri s) with
  | error err => rfl
  | ok host => simp [Header.Set]

theorem uploadChecked_cons (d : Deps) (fileBytes : List Byte) (addr : VodUploadAddress)
    (tr : List Event) (h : String) (hs : List String) (s : Option VodStoreInfo)
    (ss : List (Option VodStoreInfo))
    (hh : addr.UploadHosts = h :: hs) (hst : addr.StoreInfos = s :: ss) :
    uploadChecked d fileBytes (some addr) tr = uploadTransfer d fileBytes addr tr := by
  simp [uploadChecked, storeInfoGuard, GetUploadHosts, GetStoreInfos, hh, hst]

theorem uploadChecked_no_host (d : Deps) (fileBytes : List Byte) (addr : VodUploadAddress)
    (tr : List Event) (hh : addr.UploadHosts = []) :
    uploadChecked d fileBytes (some addr) tr =
      ⟨Exec.ret ("", "", some ⟨"no tos host found"⟩, StatusBadRequest), tr⟩ := by
  simp [uploadChecked, GetUploadHosts, hh]

theorem uploadChecked_no_store (d : Deps) (fileBytes : List Byte) (addr : VodUploadAddress)
    (tr : List Event) (h : String) (hs : List String)
    (hh : addr.UploadHosts = h :: hs) (hst : addr.StoreInfos = []) :
    uploadChecked d fileBytes (some addr) tr =
      ⟨Exec.panic (indexOutOfRange 0 0), tr⟩ := by
  simp [uploadChecked, storeInfoGuard, withIndex, GetUploadHosts, GetStoreInfos, hh, hst]

theorem transferResult_trace (d : Deps) (req : HttpRequest) (oid sessionKey : String)
    (tr1 : List Event) : (transferResult d req oid sessionKey tr1).trace = tr1 := by
  unfold transferResult
  split
  · rfl
  · split
    · rfl
    · split
      · rfl
      · split <;> rfl

theorem transferResult_out (d : Deps) (req : HttpRequest) (oid sessionKey : String)
    (tr1 : List Event) (o k : String) (err : Option GoError) (code : Int)
    (h : (transferResult d req oid sessionKey tr1).out = Exec.ret (o, k, err, code)) :
    code = StatusBadRequest ∧ (err ≠ none → o = "" ∧ k = "") ∧
      (err = none → o = oid ∧ k = sessionKey) := by
  unfold transferResult at h
  split at h
  · simp at h; obtain ⟨rfl, rfl, rfl, rfl⟩ := h; simp
  · split at h
    · simp at h; obtain ⟨rfl, rfl, rfl, rfl⟩ := h; simp
    · split at h
      · simp at h; obtain ⟨rfl, rfl, rfl, rfl⟩ := h; simp
      · split at h
        · simp at h; obtain ⟨rfl, rfl, rfl, rfl⟩ := h; simp
        · simp at h; obtain ⟨rfl, rfl, rfl, rfl⟩ := h; simp

/-- Every way `uploadChecked` can end, by the shape of the address. -/
theorem uploadChecked_cases (d : Deps) (fileBytes : List Byte)
    (a : Option VodUploadAddress) (tr : List Event) :
    (a = none ∧ uploadChecked d fileBytes a tr =
        ⟨Exec.ret ("", "", some ⟨"upload address not exist"⟩, StatusBadRequest), tr⟩) ∨
    (∃ addr, a = some addr ∧ addr.UploadHosts = [] ∧ uploadChecked d fileBytes a tr =
        ⟨Exec.ret ("", "", some ⟨"no tos host found"⟩, StatusBadRequest), tr⟩) ∨
    (∃ addr h hs, a = some addr ∧ addr.UploadHosts = h :: hs ∧ addr.StoreInfos = [] ∧
        uploadChecked d fileBytes a tr = ⟨Exec.panic (indexOutOfRange 0 0), tr⟩) ∨
    (∃ addr h hs s ss err, a = some addr ∧ addr.UploadHosts = h :: hs ∧
        addr.StoreInfos = s :: ss ∧
        d.urlParse ("http://" ++ h ++ "/" ++ GetStoreUri s) = Except.error err ∧
        uploadChecked d fileBytes a tr =
          ⟨Exec.ret ("", "", some err, StatusBadRequest), tr⟩) ∨
    (∃ addr h hs s ss host, a = some addr ∧ addr.UploadHosts = h :: hs ∧
        addr.StoreInfos = s :: ss ∧
        d.urlParse ("http://" ++ h ++ "/" ++ GetStoreUri s) = Except.ok host ∧
        uploadChecked d fileBytes a tr =
          transferResult d (expectedPut fileBytes h s host) (GetStoreUri s) addr.SessionKey
            (tr ++ [Event.put (expectedPut fileBytes h s host)])) := by
  cases a with
  | none => left; exact ⟨rfl, rfl⟩
  | some addr =>
    right
    cases hh : addr.UploadHosts with
    | nil => left; exact ⟨addr, rfl, hh, uploadChecked_no_host d fileBytes addr tr hh⟩
    | cons h hs =>
      right
      cases hst : addr.StoreInfos with
      | nil =>
        left
        exact ⟨addr, h, hs, rfl, hh, hst, uploadChecked_no_store d fileBytes addr tr h hs hh hst⟩
      | cons s ss =>
        right
        have e1 := uploadChecked_cons d fileBytes addr tr h hs s ss hh hst
        have e2 := uploadTransfer_cons d fileBytes addr tr h hs s ss hh hst
        cases hu : d.urlParse ("http://" ++ h ++ "/" ++ GetStoreUri s) with
        | error err =>
          left
          refine ⟨addr, h, hs, s, ss, err, rfl, hh, hst, hu, ?_⟩
          rw [e1, e2, hu]
        | ok host =>
          right
          refine ⟨addr, h, hs, s, ss, host, rfl, hh, hst, hu, ?_⟩
          rw [e1, e2, hu]
          rfl

/-- Every way `Upload` can end before the address is looked at. -/
theorem Upload_cases (d : Deps) (fileBytes : List Byte) (spaceName : String) :
    (fileBytes = [] ∧ Upload d fileBytes spaceName =
        ⟨Exec.ret ("", "", some ⟨"file size is zero"⟩, StatusBadRequest), []⟩) ∨
    (fileBytes ≠ [] ∧ ∃ err code, Upload d fileBytes spaceName =
        ⟨Exec.ret ("", "", some err, code), [Event.apply ⟨spaceName⟩]⟩) ∨
    (fileBytes ≠ [] ∧ Upload d fileBytes spaceName =
        ⟨Exec.panic nilDereference, [Event.apply ⟨spaceName⟩]⟩) ∨
    (fileBytes ≠ [] ∧ applySucceeded (d.ApplyUploadInfo ⟨spaceName⟩) = true ∧
      Upload d fileBytes spaceName =
        uploadChecked d fileBytes (appliedAddress (d.ApplyUploadInfo ⟨spaceName⟩))
          [Event.apply ⟨spaceName⟩]) := by
  by_cases hne : fileBytes = []
  · left; subst hne; exact ⟨rfl, rfl⟩
  · right
    by_cases hok : applySucceeded (d.ApplyUploadInfo ⟨spaceName⟩) = true
    · right; right
      exact ⟨hne, hok, Upload_of_applySucceeded d fileBytes spaceName hne hok⟩
    · have hlen : fileBytes.length ≠ 0 := fun h => hne (List.length_eq_zero.mp h)
      rcases hr : d.ApplyUploadInfo ⟨spaceName⟩ with ⟨resp, code, err⟩
      rw [hr] at hok
      cases err with
      | some e =>
        left
        refine ⟨hne, e, code, ?_⟩
        simp [Upload, hlen, hr]
      | none =>
        cases resp with
        | none => right; left; refine ⟨hne, ?_⟩; simp [Upload, hlen, hr]
        | some resp =>
          cases hmd : resp.ResponseMetadata with
          | none => right; left; refine ⟨hne, ?_⟩; simp [Upload, hlen, hr, hmd]
          | some md =>
            cases he : md.Error with
            | none => simp [applySucceeded, hmd, he] at hok
            | some e =>
              have hc : e.Code ≠ "0" := by simpa [applySucceeded, hmd, he] using hok
              left
              refine ⟨hne, ⟨d.fmtResponseError e⟩, code, ?_⟩
              simp [Upload, hlen, hr, hmd, he, hc]

theorem Upload_put_mem (d : Deps) (fileBytes : List Byte) (spaceName : String)
    (req : HttpRequest) (hmem : Event.put req ∈ (Upload d fileBytes spaceName).trace) :
    ∃ addr h hs s ss host, fileBytes ≠ [] ∧
      applySucceeded (d.ApplyUploadInfo ⟨spaceName⟩) = true ∧
      appliedAddress (d.ApplyUploadInfo ⟨spaceName⟩) = some addr ∧
      addr.UploadHosts = h :: hs ∧ addr.StoreInfos = s :: ss ∧
      d.urlParse ("http://" ++ h ++ "/" ++ GetStoreUri s) = Except.ok host ∧
      req = expectedPut fileBytes h s host ∧
      Upload d fileBytes spaceName =
        transferResult d req (GetStoreUri s) addr.SessionKey
          [Event.apply ⟨spaceName⟩, Event.put req] := by
  rcases Upload_cases d fileBytes spaceName with ⟨_, h⟩ | ⟨_, _, _, h⟩ | ⟨_, h⟩ | ⟨hne, hok, h⟩
  · rw [h] at hmem; simp at hmem
  · rw [h] at hmem; simp at hmem
  · rw [h] at hmem; simp at hmem
  · rw [h] at hmem
    rcases uploadChecked_cases d fileBytes (appliedAddress (d.ApplyUploadInfo ⟨spaceName⟩))
        [Event.apply ⟨spaceName⟩] with
      ⟨_, h2⟩ | ⟨_, _, _, h2⟩ | ⟨_, _, _, _, _, _, h2⟩ | ⟨_, _, _, _, _, _, _, _, _, _, h2⟩ |
      ⟨addr, h0, hs, s, ss, host, ha, hh, hst, hu, h2⟩
    · rw [h2] at hmem; simp at hmem
    · rw [h2] at hmem; simp at hmem
    · rw [h2] at hmem; simp at hmem
    · rw [h2] at hmem; simp at hmem
    · rw [h2, transferResult_trace] at hmem
      have hreq : req = expectedPut fileBytes h0 s host := by simpa using hmem
      refine ⟨addr, h0, hs, s, ss, host, hne, hok, ha, hh, hst, hu, hreq, ?_⟩
      rw [h, h2, hreq]
      rfl

/-- What `Upload` returns, by whether the error is nil. -/
theorem Upload_out_ret (d : Deps) (fileBytes : List Byte) (spaceName : String)
    (oid sessionKey : String) (err : Option GoError) (code : Int)
    (hret : (Upload d fileBytes spaceName).out = Exec.ret (oid, sessionKey, err, code)) :
    (err ≠ none → oid = "" ∧ sessionKey = "") ∧
    (err = none → ∃ addr s ss,
      appliedAddress (d.ApplyUploadInfo ⟨spaceName⟩) = some addr ∧
      addr.StoreInfos = s :: ss ∧ oid = GetStoreUri s ∧
      sessionKey = GetSessionKey (some addr) ∧ code = 400) := by
  rcases Upload_cases d fileBytes spaceName with ⟨_, h⟩ | ⟨_, _, _, h⟩ | ⟨_, h⟩ | ⟨hne, hok, h⟩
  · rw [h] at hret; simp at hret; obtain ⟨rfl, rfl, rfl, rfl⟩ := hret; simp
  · rw [h] at hret; simp at hret; obtain ⟨rfl, rfl, rfl, rfl⟩ := hret; simp
  · rw [h] at hret; simp at hret
  · rw [h] at hret
    rcases uploadChecked_cases d fileBytes (appliedAddress (d.ApplyUploadInfo ⟨spaceName⟩))
        [Event.apply ⟨spaceName⟩] with
      ⟨_, h2⟩ | ⟨_, _, _, h2⟩ | ⟨_, _, _, _, _, _, h2⟩ | ⟨_, _, _, _, _, _, _, _, _, _, h2⟩ |
      ⟨addr, h0, hs, s, ss, host, ha, hh, hst, hu, h2⟩
    · rw [h2] at hret; simp at hret; obtain ⟨rfl, rfl, rfl, rfl⟩ := hret; simp
    · rw [h2] at hret; simp at hret; obtain ⟨rfl, rfl, rfl, rfl⟩ := hret; simp
    · rw [h2] at hret; simp at hret
    · rw [h2] at hret; simp at hret; obtain ⟨rfl, rfl, rfl, rfl⟩ := hret; simp
    · rw [h2] at hret
      obtain ⟨hc, h1, h3⟩ := transferResult_out d _ _ _ _ _ _ _ _ hret
      refine ⟨h1, fun hn => ?_⟩
      obtain ⟨ho, hk⟩ := h3 hn
      exact ⟨addr, s, ss, ha, hst, ho, hk, hc⟩

/-- C2: with an empty payload `Upload` returns `("", "", error, 400)` whatever
the collaborators do, and makes no call at all (the trace is empty). -/
theorem Upload_empty_payload (d : Deps) (spaceName : String) :
    Upload d [] spaceName =
      ⟨Exec.ret ("", "", some ⟨"file size is zero"⟩, 400), []⟩ := by
  rfl

/-- C3: a non-empty payload, a successful apply call without embedded error and
an upload address with no host give `("", "", "no tos host found", 400)`; the
only call made is the apply call, whatever the store infos are. -/
theorem Upload_no_host (d : Deps) (fileBytes : List Byte) (spaceName : String)
    (addr : VodUploadAddress) (hne : fileBytes ≠ [])
    (hok : applySucceeded (d.ApplyUploadInfo ⟨spaceName⟩) = true)
    (haddr : appliedAddress (d.ApplyUploadInfo ⟨spaceName⟩) = some addr)
    (hh : addr.UploadHosts = []) :
    Upload d fileBytes spaceName =
      ⟨Exec.ret ("", "", some ⟨"no tos host found"⟩, 400), [Event.apply ⟨spaceName⟩]⟩ := by
  rw [Upload_of_applySucceeded d fileBytes spaceName hne hok, haddr,
    uploadChecked_no_host d fileBytes addr _ hh]
  rfl

theorem Upload_no_host_witness :
    Upload (sampleDeps { sampleAddress with UploadHosts := [] } 200 0) helloBytes "space" =
      ⟨Exec.ret ("", "", some ⟨"no tos host found"⟩, 400), [Event.apply ⟨"space"⟩]⟩ :=
  Upload_no_host (sampleDeps { sampleAddress with UploadHosts := [] } 200 0) helloBytes "space"
    { sampleAddress with UploadHosts := [] } (by decide) (by decide) (by decide) (by decide)

/-- C1 (the code departs from the claim): with a non-empty payload, a successful
apply call and an address that has a host but no store info, `Upload` does not
return the error "no store info found": evaluating `GetStoreInfos()[0]` in the
guard of line 128 panics with an index out of range. No PUT is attempted. -/
theorem Upload_no_store_info_panics (d : Deps) (fileBytes : List Byte) (spaceName : String)
    (addr : VodUploadAddress) (h : String) (hs : List String) (hne : fileBytes ≠ [])
    (hok : applySucceeded (d.ApplyUploadInfo ⟨spaceName⟩) = true)
    (haddr : appliedAddress (d.ApplyUploadInfo ⟨spaceName⟩) = some addr)
    (hh : addr.UploadHosts = h :: hs) (hst : addr.StoreInfos = []) :
    Upload d fileBytes spaceName =
      ⟨Exec.panic "runtime error: index out of range [0] with length 0",
        [Event.apply ⟨spaceName⟩]⟩ := by
  rw [Upload_of_applySucceeded d fileBytes spaceName hne hok, haddr,
    uploadChecked_no_store d fileBytes addr _ h hs hh hst]
  rfl

theorem Upload_no_store_info_panics_witness :
    Upload (sampleDeps { sampleAddress with StoreInfos := [] } 200 0) helloBytes "space" =
      ⟨Exec.panic "runtime error: index out of range [0] with length 0",
        [Event.apply ⟨"space"⟩]⟩ :=
  Upload_no_store_info_panics (sampleDeps { sampleAddress with StoreInfos := [] } 200 0)
    helloBytes "space" { sampleAddress with StoreInfos := [] } "h" [] (by decide) (by decide)
    (by decide) (by decide) (by decide)

/-- C5: for a non-empty payload and a successful apply call whose address has
a first host `h` and a first store info `s`, the URL handed to `http.NewRequest`
is `"http://" ++ h ++ "/" ++` the object id of `s`; when it does not parse no
request is sent, and otherwise exactly one request is sent, a PUT to that URL
with `Authorization` the auth of `s` and the payload as body. The run is the one
of an address holding only `h` and `s`: later hosts and store infos are unused. -/
theorem Upload_put_request (d : Deps) (fileBytes : List Byte) (spaceName : String)
    (addr : VodUploadAddress) (h : String) (hs : List String) (s : Option VodStoreInfo)
    (ss : List (Option VodStoreInfo)) (hne : fileBytes ≠ [])
    (hok : applySucceeded (d.ApplyUploadInfo ⟨spaceName⟩) = true)
    (haddr : appliedAddress (d.ApplyUploadInfo ⟨spaceName⟩) = some addr)
    (hh : addr.UploadHosts = h :: hs) (hst : addr.StoreInfos = s :: ss) :
    (∀ err, d.urlParse ("http://" ++ h ++ "/" ++ GetStoreUri s) = Except.error err →
      Upload d fileBytes spaceName =
        ⟨Exec.ret ("", "", some err, 400), [Event.apply ⟨spaceName⟩]⟩) ∧
    (∀ host, d.urlParse ("http://" ++ h ++ "/" ++ GetStoreUri s) = Except.ok host →
      (Upload d fileBytes spaceName).trace =
        [Event.apply ⟨spaceName⟩,
         Event.put
          { Method := "PUT", URL := "http://" ++ h ++ "/" ++ GetStoreUri s, Host := host,
            Header := [("Content-CRC32", sprintf08x (ChecksumIEEE fileBytes)),
                       ("Authorization", GetAuth s)],
            Body := fileBytes }]) ∧
    Upload d fileBytes spaceName =
      uploadTransfer d fileBytes
        { StoreInfos := [s], UploadHosts := [h], SessionKey := addr.SessionKey }
        [Event.apply ⟨spaceName⟩] := by
  have e0 := Upload_of_applySucceeded d fileBytes spaceName hne hok
  rw [haddr, uploadChecked_cons d fileBytes addr _ h hs s ss hh hst] at e0
  have e1 := uploadTransfer_cons d fileBytes addr [Event.apply ⟨spaceName⟩] h hs s ss hh hst
  have e2 := uploadTransfer_cons d fileBytes
    { StoreInfos := [s], UploadHosts := [h], SessionKey := addr.SessionKey }
    [Event.apply ⟨spaceName⟩] h [] s [] rfl rfl
  refine ⟨?_, ?_, ?_⟩
  · intro err hu
    rw [e0, e1, hu]
    rfl
  · intro host hu
    rw [e0, e1, hu]
    simp [transferResult_trace]
  · rw [e0, e1, e2]

theorem Upload_put_request_witness :
    (Upload (sampleDeps sampleAddress 200 0) helloBytes "space").trace =
      [Event.apply ⟨"space"⟩,
       Event.put
        { Method := "PUT", URL := "http://h/o123", Host := "h",
          Header := [("Content-CRC32", "3610a686"), ("Authorization", "A1")],
          Body := helloBytes }] :=
  (Upload_put_request (sampleDeps sampleAddress 200 0) helloBytes "space" sampleAddress
    "h" [] (some ⟨"o123", "A1"⟩) [] (by decide) (by decide) (by decide) (by decide)
    (by decide)).2.1 "h" rfl

/-- C6: whenever `Upload` returns, a non-nil error comes with an empty object id
and an empty session key, and a nil error comes with the object id of the first
store info of the applied address, the session key of that address, and the
status code 400. -/
theorem Upload_result_shape (d : Deps) (fileBytes : List Byte) (spaceName : String)
    (oid sessionKey : String) (err : Option GoError) (code : Int)
    (hret : (Upload d fileBytes spaceName).out = Exec.ret (oid, sessionKey, err, code)) :
    (err ≠ none → oid = "" ∧ sessionKey = "") ∧
    (err = none → ∃ addr s ss,
      appliedAddress (d.ApplyUploadInfo ⟨spaceName⟩) = some addr ∧
      addr.StoreInfos = s :: ss ∧ oid = GetStoreUri s ∧
      sessionKey = GetSessionKey (some addr) ∧ code = 400) :=
  Upload_out_ret d fileBytes spaceName oid sessionKey err code hret

theorem Upload_result_shape_witness :
    ((none : Option GoError) ≠ none → "o123" = "" ∧ "s1" = "") ∧
    ((none : Option GoError) = none → ∃ addr s ss,
      appliedAddress ((sampleDeps sampleAddress 200 0).ApplyUploadInfo ⟨"space"⟩) = some addr ∧
      addr.StoreInfos = s :: ss ∧ "o123" = GetStoreUri s ∧
      "s1" = GetSessionKey (some addr) ∧ (400 : Int) = 400) :=
  Upload_result_shape (sampleDeps sampleAddress 200 0) helloBytes "space" "o123" "s1" none 400
    (by decide)

/-- C7: when the PUT was sent and answered with status 200 and an envelope whose
`success` is not zero, `Upload` returns `("", "", error, 400)` with "tos err" in
the error message, and `UploadMediaInner` and `UploadMediaWithCallback` return a
nil response with that error and that code; the calls made are the apply call
and the PUT, never the commit call. -/
theorem Upload_tos_failure (d : Deps) (fileBytes : List Byte)
    (spaceName callbackArgs : String) (funcs : GoSlice Function) (req : HttpRequest)
    (rsp : HttpResponse) (t : TosResp)
    (hput : Event.put req ∈ (Upload d fileBytes spaceName).trace)
    (hdo : d.clientDo req = Except.ok rsp) (hstatus : rsp.StatusCode = 200)
    (hdec : d.jsonDecodeTos rsp.Body = Except.ok t) (hsucc : t.Success ≠ 0) :
    ∃ e : GoError, "tos err".data <:+: e.msg.data ∧
      Upload d fileBytes spaceName =
        ⟨Exec.ret ("", "", some e, 400), [Event.apply ⟨spaceName⟩, Event.put req]⟩ ∧
      UploadMediaInner d fileBytes spaceName callbackArgs funcs =
        ⟨Exec.ret (none, 400, some e), [Event.apply ⟨spaceName⟩, Event.put req]⟩ ∧
      UploadMediaWithCallback d fileBytes spaceName callbackArgs funcs =
        ⟨Exec.ret (none, 400, some e), [Event.apply ⟨spaceName⟩, Event.put req]⟩ := by
  obtain ⟨addr, h, hs, s, ss, host, -, -, -, -, -, -, -, hU⟩ :=
    Upload_put_mem d fileBytes spaceName req hput
  have hU2 : Upload d fileBytes spaceName =
      ⟨Exec.ret ("", "", some ⟨"tos err:" ++ "\x7bSuccess:" ++ Itoa t.Success
          ++ " Payload:" ++ t.Payload ++ "\x7d"⟩, 400),
        [Event.apply ⟨spaceName⟩, Event.put req]⟩ := by
    rw [hU]
    simp [transferResult, hdo, hstatus, StatusOK, hdec, hsucc, StatusBadRequest]
  refine ⟨_, ?_, hU2, ?_, ?_⟩
  · refine ⟨[], (":" ++ "\x7bSuccess:" ++ Itoa t.Success
          ++ " Payload:" ++ t.Payload ++ "\x7d").data, ?_⟩
    simp [String.data_append]
  · simp [UploadMediaInner, hU2]
  · simp [UploadMediaWithCallback, UploadMediaInner, hU2]

theorem Upload_tos_failure_witness :
    ∃ e : GoError, "tos err".data <:+: e.msg.data ∧
      Upload (sampleDeps sampleAddress 200 1) helloBytes "space" =
        ⟨Exec.ret ("", "", some e, 400),
          [Event.apply ⟨"space"⟩, Event.put (expectedPut helloBytes "h" (some ⟨"o123", "A1"⟩) "h")]⟩ ∧
      UploadMediaInner (sampleDeps sampleAddress 200 1) helloBytes "space" "cb" none =
        ⟨Exec.ret (none, 400, some e),
          [Event.apply ⟨"space"⟩, Event.put (expectedPut helloBytes "h" (some ⟨"o123", "A1"⟩) "h")]⟩ ∧
      UploadMediaWithCallback (sampleDeps sampleAddress 200 1) helloBytes "space" "cb" none =
        ⟨Exec.ret (none, 400, some e),
          [Event.apply ⟨"space"⟩, Event.put (expectedPut helloBytes "h" (some ⟨"o123", "A1"⟩) "h")]⟩ :=
  Upload_tos_failure (sampleDeps sampleAddress 200 1) helloBytes "space" "cb" none
    (expectedPut helloBytes "h" (some ⟨"o123", "A1"⟩) "h") ⟨200, "body"⟩ ⟨1, "<nil>"⟩
    (by decide) (by rfl) (by rfl) (by rfl) (by decide)

/-! ## The commit step -/

theorem Upload_commitCalls (d : Deps) (fileBytes : List Byte) (spaceName : String) :
    commitCalls (Upload d fileBytes spaceName).trace = [] := by
  rcases Upload_cases d fileBytes spaceName with ⟨_, h⟩ | ⟨_, _, _, h⟩ | ⟨_, h⟩ | ⟨hne, hok, h⟩
  · rw [h]; rfl
  · rw [h]; rfl
  · rw [h]; rfl
  · rw [h]
    rcases uploadChecked_cases d fileBytes (appliedAddress (d.ApplyUploadInfo ⟨spaceName⟩))
        [Event.apply ⟨spaceName⟩] with
      ⟨_, h2⟩ | ⟨_, _, _, h2⟩ | ⟨_, _, _, _, _, _, h2⟩ | ⟨_, _, _, _, _, _, _, _, _, _, h2⟩ |
      ⟨addr, h0, hs, s, ss, host, ha, hh, hst, hu, h2⟩
    · rw [h2]; rfl
    · rw [h2]; rfl
    · rw [h2]; rfl
    · rw [h2]; rfl
    · rw [h2, transferResult_trace]; rfl

theorem commitCalls_append (a b : List Event) :
    commitCalls (a ++ b) = commitCalls a ++ commitCalls b := by
  simp [commitCalls, List.filterMap_append]

theorem marshalElems_forall₂ (enc : Function → Except GoError String) (fs : List Function)
    (ss : List String) (h : marshalElems enc fs = Except.ok ss) :
    List.Forall₂ (fun f s => enc f = Except.ok s) fs ss := by
  induction fs generalizing ss with
  | nil =>
    simp [marshalElems] at h
    subst h
    exact List.Forall₂.nil
  | cons f fs ih =>
    unfold marshalElems at h
    cases he : enc f with
    | error err => simp [he] at h
    | ok s =>
      cases hr : marshalElems enc fs with
      | error err => simp [he, hr] at h
      | ok rest =>
        simp [he, hr] at h
        subst h
        exact List.Forall₂.cons he (ih rest hr)

/-- C8 (counterexample): with no function spec passed, the commit request's
`Functions` field is the text `null`, which is not the JSON array of the (empty)
list of specs; and with a function spec that does not serialize,
`UploadMediaInner` panics after a successful upload without calling the commit
API. -/
theorem UploadMediaInner_functions_null :
    (commitCalls (UploadMediaInner (sampleDeps sampleAddress 200 0) helloBytes "space" "cb"
        none).trace =
      [{ SpaceName := "space", SessionKey := "s1", CallbackArgs := "cb", Functions := "null" }] ∧
    "null" ≠ jsonArray []) ∧
    ((Upload rejectingDeps helloBytes "space").out = Exec.ret ("o123", "s1", none, 400) ∧
    (UploadMediaInner rejectingDeps helloBytes "space" "cb" (some [⟨"Snapshot", "chan"⟩])).out =
      Exec.panic "json: unsupported type" ∧
    commitCalls (UploadMediaInner rejectingDeps helloBytes "space" "cb"
      (some [⟨"Snapshot", "chan"⟩])).trace = []) := by
  decide

/-- C8 (amended): after a successful `Upload`, when the function specs
serialize, `UploadMediaInner` calls the commit API exactly once, with the
caller's space name and callback arguments, the session key of the applied
address, and `Functions` the text `null` for the nil slice and otherwise the JSON
array of the specs' encodings in order; it returns the commit call's status code
and error, and the commit response when that error is nil. -/
theorem UploadMediaInner_commit (d : Deps) (fileBytes : List Byte)
    (spaceName callbackArgs : String) (funcs : GoSlice Function) (oid sessionKey : String)
    (code : Int) (fbts : String)
    (hup : (Upload d fileBytes spaceName).out = Exec.ret (oid, sessionKey, none, code))
    (hm : marshalFuncs d funcs = Except.ok fbts) :
    commitCalls (UploadMediaInner d fileBytes spaceName callbackArgs funcs).trace =
      [{ SpaceName := spaceName, SessionKey := sessionKey, CallbackArgs := callbackArgs,
         Functions := fbts }] ∧
    sessionKey = GetSessionKey (appliedAddress (d.ApplyUploadInfo ⟨spaceName⟩)) ∧
    (funcs = none → fbts = "null") ∧
    (∀ fs, funcs = some fs → ∃ ss,
      List.Forall₂ (fun f s => d.marshalFunction f = Except.ok s) fs ss ∧
      fbts = jsonArray ss) ∧
    (∀ resp c err,
      d.CommitUploadInfo ⟨spaceName, sessionKey, callbackArgs, fbts⟩ = (resp, c, err) →
      (UploadMediaInner d fileBytes spaceName callbackArgs funcs).out =
        Exec.ret (if err = none then resp else none, c, err)) := by
  have hnc := Upload_commitCalls d fileBytes spaceName
  have hshape := Upload_out_ret d fileBytes spaceName oid sessionKey none code hup
  obtain ⟨addr, s, ss, ha, -, -, hk, -⟩ := hshape.2 rfl
  rcases hU : Upload d fileBytes spaceName with ⟨out, tr⟩
  rw [hU] at hup hnc
  simp only at hup hnc
  subst hup
  refine ⟨?_, ?_, ?_, ?_, ?_⟩
  · unfold UploadMediaInner
    rw [hU]
    simp only [hm]
    rcases d.CommitUploadInfo ⟨spaceName, sessionKey, callbackArgs, fbts⟩ with ⟨resp, c, err⟩
    cases err <;> (simp only [commitCalls_append, hnc]; rfl)
  · rw [ha]; exact hk
  · intro hn
    subst hn
    simpa [marshalFuncs] using hm.symm
  · intro fs hfs
    subst hfs
    unfold marshalFuncs at hm
    cases hr : marshalElems d.marshalFunction fs with
    | error err => simp [hr] at hm
    | ok ss =>
      simp [hr] at hm
      exact ⟨ss, marshalElems_forall₂ _ _ _ hr, hm.symm⟩
  · intro resp c err hc
    unfold UploadMediaInner
    rw [hU]
    simp only [hm, hc]
    cases err <;> simp

theorem UploadMediaInner_commit_witness :
    commitCalls (UploadMediaInner (sampleDeps sampleAddress 200 0) helloBytes "space" "cb"
        (some [⟨"GetMeta", ""⟩, ⟨"Snapshot", ""⟩])).trace =
      [{ SpaceName := "space", SessionKey := "s1", CallbackArgs := "cb",
         Functions := "[\x7b\"Name\":\"GetMeta\"\x7d,\x7b\"Name\":\"Snapshot\"\x7d]" }] :=
  (UploadMediaInner_commit (sampleDeps sampleAddress 200 0) helloBytes "space" "cb"
    (some [⟨"GetMeta", ""⟩, ⟨"Snapshot", ""⟩]) "o123" "s1" 400
    "[\x7b\"Name\":\"GetMeta\"\x7d,\x7b\"Name\":\"Snapshot\"\x7d]" (by decide) (by rfl)).1

/-! ## The checksum: table-driven CRC-32 against the bitwise definition -/

theorem crcBitRound_eq (c : Nat) :
    crcBitRound c = (c / 2) ^^^ (if c % 2 = 1 then 0xEDB88320 else 0) := by
  unfold crcBitRound
  split <;> simp

theorem xor_mod_two (a b : Nat) : (a ^^^ b) % 2 = (a % 2 + b % 2) % 2 := by
  have h := Nat.testBit_xor a b 0
  simp only [Nat.testBit_zero] at h
  rcases Nat.mod_two_eq_zero_or_one a with ha | ha <;>
    rcases Nat.mod_two_eq_zero_or_one b with hb | hb <;>
    rcases Nat.mod_two_eq_zero_or_one (a ^^^ b) with hab | hab <;>
    simp [ha, hb, hab] at h ⊢

theorem xor_cancel_both (x y p : Nat) : (x ^^^ p) ^^^ (y ^^^ p) = x ^^^ y := by
  have h : (x ^^^ p) ^^^ (y ^^^ p) = (x ^^^ y) ^^^ (p ^^^ p) := by ac_rfl
  rw [h, Nat.xor_self, Nat.xor_zero]

theorem crcBitRound_xor (a b : Nat) :
    crcBitRound (a ^^^ b) = crcBitRound a ^^^ crcBitRound b := by
  rw [crcBitRound_eq, crcBitRound_eq, crcBitRound_eq, Nat.xor_div_two, xor_mod_two]
  rcases Nat.mod_two_eq_zero_or_one a with ha | ha <;>
    rcases Nat.mod_two_eq_zero_or_one b with hb | hb <;>
    simp only [ha, hb, Nat.xor_zero, if_true, if_false, Nat.add_zero, Nat.zero_add,
      Nat.reduceMod, Nat.reduceAdd, Nat.zero_ne_one, Nat.reduceEqDiff]
  · ac_rfl
  · ac_rfl
  · rw [xor_cancel_both]

theorem crcBitRound_iterate_xor (k a b : Nat) :
    crcBitRound^[k] (a ^^^ b) = crcBitRound^[k] a ^^^ crcBitRound^[k] b := by
  induction k generalizing a b with
  | zero => rfl
  | succ k ih => rw [Function.iterate_succ_apply, Function.iterate_succ_apply,
      Function.iterate_succ_apply, crcBitRound_xor, ih]

theorem crcBitRound_iterate_shiftLeft (k y : Nat) : crcBitRound^[k] (y <<< k) = y := by
  induction k with
  | zero => simp
  | succ k ih =>
    rw [Function.iterate_succ_apply]
    have h : crcBitRound (y <<< (k + 1)) = y <<< k := by
      unfold crcBitRound
      rw [Nat.shiftLeft_succ, if_neg (by omega)]
      omega
    rw [h, ih]

theorem split_low_high (k x : Nat) : x = (x % 2 ^ k) ^^^ ((x >>> k) <<< k) := by
  apply Nat.eq_of_testBit_eq
  intro i
  simp only [Nat.testBit_xor, Nat.testBit_mod_two_pow, Nat.testBit_shiftLeft,
    Nat.testBit_shiftRight]
  by_cases h : i < k
  · have h2 : ¬ i ≥ k := by omega
    simp [h, h2]
  · have h2 : i ≥ k := by omega
    have h3 : k + (i - k) = i := by omega
    simp [h, h2, h3]

/-- Eight bit rounds split into the rounds of the low byte and the untouched
high part: the identity behind the byte-indexed table. -/
theorem crcBitRound_iterate_split (k x : Nat) :
    crcBitRound^[k] x = crcBitRound^[k] (x % 2 ^ k) ^^^ (x >>> k) := by
  conv_lhs => rw [split_low_high k x]
  rw [crcBitRound_iterate_xor, crcBitRound_iterate_shiftLeft]

theorem simpleTableEntry_eq (i : Nat) : simpleTableEntry IEEE i = crcBitRound^[8] i := by
  have hstep : ∀ c : Nat,
      (if c &&& 1 = 1 then (c >>> 1) ^^^ IEEE else c >>> 1) = crcBitRound c := by
    intro c
    simp [crcBitRound, IEEE, Nat.shiftRight_one]
  simp only [simpleTableEntry, hstep]
  rfl

theorem simpleMakeTable_getD (i : Nat) (hi : i < 256) :
    (simpleMakeTable IEEE).getD i 0 = crcBitRound^[8] i := by
  unfold simpleMakeTable
  rw [List.getD_eq_getElem?_getD, List.getElem?_map, List.getElem?_range hi]
  simp [simpleTableEntry_eq]

theorem testBit_byte_high (b : Byte) (j : Nat) (hj : 8 ≤ j) : b.val.testBit j = false := by
  apply Nat.testBit_lt_two_pow
  calc b.val < 2 ^ 8 := b.isLt
    _ ≤ 2 ^ j := Nat.pow_le_pow_right (by decide) hj

theorem xor_byte_mod (c : Nat) (b : Byte) : (c ^^^ b.val) % 256 = (c % 256) ^^^ b.val := by
  apply Nat.eq_of_testBit_eq
  intro i
  show ((c ^^^ b.val) % 2 ^ 8).testBit i = ((c % 2 ^ 8) ^^^ b.val).testBit i
  simp only [Nat.testBit_xor, Nat.testBit_mod_two_pow]
  by_cases h : i < 8
  · simp [h]
  · simp [h, testBit_byte_high b i (by omega)]

theorem xor_byte_shiftRight (c : Nat) (b : Byte) : (c ^^^ b.val) >>> 8 = c >>> 8 := by
  apply Nat.eq_of_testBit_eq
  intro i
  simp [Nat.testBit_xor, Nat.testBit_shiftRight, testBit_byte_high b (8 + i) (by omega)]

/-- One step of the table-driven loop is one byte round of the bitwise CRC. -/
theorem table_step_eq (c : Nat) (b : Byte) :
    (simpleMakeTable IEEE).getD ((c % 256) ^^^ b.val) 0 ^^^ (c >>> 8) = crcByteRound c b := by
  have hlt : (c % 256) ^^^ b.val < 256 := by
    have h1 : c % 256 < 2 ^ 8 := by omega
    have h2 : b.val < 2 ^ 8 := b.isLt
    exact Nat.xor_lt_two_pow h1 h2
  rw [simpleMakeTable_getD _ hlt]
  unfold crcByteRound
  rw [crcBitRound_iterate_split 8 (c ^^^ b.val)]
  have h256 : (2 : Nat) ^ 8 = 256 := by norm_num
  rw [h256, xor_byte_mod, xor_byte_shiftRight]

/-- The table-driven `ChecksumIEEE` computes the bitwise IEEE CRC-32. -/
theorem ChecksumIEEE_eq_bitwise (data : List Byte) : ChecksumIEEE data = crc32Bitwise data := by
  unfold ChecksumIEEE simpleUpdate crc32Bitwise
  have hfold : ∀ (c : Nat),
      List.foldl (fun c v => (simpleMakeTable IEEE).getD ((c % 256) ^^^ v.val) 0 ^^^ (c >>> 8))
        c data = List.foldl crcByteRound c data := by
    induction data with
    | nil => intro c; rfl
    | cons b bs ih =>
      intro c
      simp only [List.foldl_cons]
      rw [table_step_eq, ih]
  simp only [hfold]
  rfl

theorem crcBitRound_lt (c : Nat) (h : c < 2 ^ 32) : crcBitRound c < 2 ^ 32 := by
  unfold crcBitRound
  split
  · exact Nat.xor_lt_two_pow (by omega) (by norm_num)
  · omega

theorem crcByteRound_lt (c : Nat) (b : Byte) (h : c < 2 ^ 32) : crcByteRound c b < 2 ^ 32 := by
  unfold crcByteRound
  have hb : b.val < 2 ^ 32 := lt_trans b.isLt (by norm_num)
  have h0 : c ^^^ b.val < 2 ^ 32 := Nat.xor_lt_two_pow h hb
  have hit : ∀ k x, x < 2 ^ 32 → crcBitRound^[k] x < 2 ^ 32 := by
    intro k
    induction k with
    | zero => intro x hx; exact hx
    | succ k ih =>
      intro x hx
      rw [Function.iterate_succ_apply]
      exact ih _ (crcBitRound_lt x hx)
  exact hit 8 _ h0

theorem crc32Bitwise_lt (data : List Byte) : crc32Bitwise data < 2 ^ 32 := by
  unfold crc32Bitwise
  have hfold : ∀ c, c < 2 ^ 32 → List.foldl crcByteRound c data < 2 ^ 32 := by
    induction data with
    | nil => intro c hc; exact hc
    | cons b bs ih =>
      intro c hc
      exact ih _ (crcByteRound_lt c b hc)
  exact Nat.xor_lt_two_pow (hfold _ (by norm_num)) (by norm_num)

/-! ## The `%08x` rendering -/

theorem ldigit_spec (d : Nat) (hd : d < 16) :
    ldigit d ∈ "0123456789abcdef".data ∧ hexDigitValue (ldigit d) = some d := by
  interval_cases d <;> decide

theorem hexFold_append (v : Nat) (a b : List Char) :
    hexFold v (a ++ b) = (hexFold v a).bind (fun w => hexFold w b) := by
  induction a generalizing v with
  | nil => rfl
  | cons c cs ih =>
    simp only [List.cons_append, hexFold]
    cases hexDigitValue c with
    | none => rfl
    | some x => exact ih _

theorem hexFold_zeros (n : Nat) (cs : List Char) :
    hexFold 0 (List.replicate n '0' ++ cs) = hexFold 0 cs := by
  induction n with
  | zero => rfl
  | succ n ih =>
    rw [List.replicate_succ, List.cons_append]
    have h0 : hexDigitValue '0' = some 0 := by decide
    simp only [hexFold, h0]
    exact ih

theorem fmtHexLoop_spec (fuel : Nat) : ∀ (u : Nat) (acc : List Char), 0 < fuel →
    u < 16 ^ fuel →
    ∃ ds, fmtHexLoop fuel u acc = ds ++ acc ∧
      (∀ c ∈ ds, c ∈ "0123456789abcdef".data) ∧
      (∀ v, hexFold v ds = some (v * 16 ^ ds.length + u)) ∧
      (∀ k, 0 < k → u < 16 ^ k → ds.length ≤ k) := by
  induction fuel with
  | zero => intro u acc h; omega
  | succ fuel ih =>
    intro u acc _ hu
    unfold fmtHexLoop
    by_cases h16 : u ≥ 16
    · rw [if_pos h16]
      have hfuel : 0 < fuel := by
        rcases Nat.eq_zero_or_pos fuel with h0 | h0
        · subst h0; simp at hu; omega
        · exact h0
      have hdiv : u >>> 4 < 16 ^ fuel := by
        rw [Nat.shiftRight_eq_div_pow]
        have : u < 16 ^ fuel * 16 := by rw [← Nat.pow_succ]; exact hu
        have h24 : (2 : Nat) ^ 4 = 16 := by norm_num
        rw [h24]
        exact Nat.div_lt_of_lt_mul (by rw [Nat.mul_comm]; exact this)
      have hand : u &&& 0xF = u % 16 := by
        have := Nat.and_pow_two_sub_one_eq_mod u 4
        simpa using this
      obtain ⟨ds, hds, hmem, hval, hlen⟩ := ih (u >>> 4) (ldigit (u &&& 0xF) :: acc) hfuel hdiv
      have hdig := ldigit_spec (u % 16) (Nat.mod_lt _ (by norm_num))
      refine ⟨ds ++ [ldigit (u % 16)], ?_, ?_, ?_, ?_⟩
      · rw [hds, hand]; simp
      · intro c hc
        rcases List.mem_append.mp hc with h | h
        · exact hmem c h
        · rw [List.mem_singleton.mp h]; exact hdig.1
      · intro v
        rw [hexFold_append, hval]
        simp only [Option.some_bind, hexFold, hdig.2, List.length_append, List.length_singleton]
        congr 1
        have hsh : u >>> 4 = u / 16 := by
          rw [Nat.shiftRight_eq_div_pow]
        rw [hsh, Nat.pow_succ, ← Nat.mul_assoc, Nat.add_mul]
        generalize v * 16 ^ ds.length = q
        omega
      · intro k hk huk
        rw [List.length_append, List.length_singleton]
        rcases k with _ | k
        · omega
        · have hk0 : 0 < k := by
            rcases Nat.eq_zero_or_pos k with h0 | h0
            · subst h0; simp at huk; omega
            · exact h0
          have hdivk : u >>> 4 < 16 ^ k := by
            rw [Nat.shiftRight_eq_div_pow]
            have : u < 16 ^ k * 16 := by rw [← Nat.pow_succ]; exact huk
            have h24 : (2 : Nat) ^ 4 = 16 := by norm_num
            rw [h24]
            exact Nat.div_lt_of_lt_mul (by rw [Nat.mul_comm]; exact this)
          have := hlen k hk0 hdivk
          omega
    · rw [if_neg h16]
      have hlt : u < 16 := by omega
      have hdig := ldigit_spec u hlt
      refine ⟨[ldigit u], rfl, ?_, ?_, ?_⟩
      · intro c hc
        rw [List.mem_singleton.mp hc]; exact hdig.1
      · intro v
        simp [hexFold, hdig.2]
      · intro k hk _
        simpa using hk

/-- The `%08x` rendering of a `uint32` has eight characters, all of them
lowercase hexadecimal digits, and reads back as the number. -/
theorem sprintf08x_spec (u : Nat) :
    (sprintf08x u).length = 8 ∧
    (∀ c ∈ (sprintf08x u).data, c ∈ "0123456789abcdef".data) ∧
    hexValue (sprintf08x u) = some (u % 2 ^ 32) := by
  have hu : u % 2 ^ 32 < 16 ^ 68 := lt_trans (Nat.mod_lt _ (by norm_num)) (by norm_num)
  have hu8 : u % 2 ^ 32 < 16 ^ 8 := by
    have : (16 : Nat) ^ 8 = 2 ^ 32 := by norm_num
    rw [this]; exact Nat.mod_lt _ (by norm_num)
  obtain ⟨ds, hds, hmem, hval, hlen⟩ := fmtHexLoop_spec 68 (u % 2 ^ 32) [] (by norm_num) hu
  have hl8 : ds.length ≤ 8 := hlen 8 (by norm_num) hu8
  rw [List.append_nil] at hds
  have hdata : (sprintf08x u).data = List.replicate (8 - ds.length) '0' ++ ds := by
    unfold sprintf08x zeroPad
    rw [hds]
  refine ⟨?_, ?_, ?_⟩
  · rw [String.length, hdata, List.length_append, List.length_replicate]
    omega
  · intro c hc
    rw [hdata] at hc
    rcases List.mem_append.mp hc with h | h
    · rw [(List.mem_replicate.mp h).2]; decide
    · exact hmem c h
  · rw [hexValue, hdata, hexFold_zeros, hval]
    simp

/-- C4: on every PUT request `Upload` sends, the `Content-CRC32` header has
exactly eight characters, each a lowercase hexadecimal digit, and its
hexadecimal value is the bitwise IEEE CRC-32 (reflected polynomial `0xEDB88320`,
initial value and final xor `0xFFFFFFFF`) of the payload, which is also the body
of the request; for the payload "hello" the header is "3610a686". -/
theorem Upload_content_crc32 (d : Deps) (fileBytes : List Byte) (spaceName : String)
    (req : HttpRequest) (hput : Event.put req ∈ (Upload d fileBytes spaceName).trace) :
    (req.Header.Get "Content-CRC32").length = 8 ∧
    (∀ c ∈ (req.Header.Get "Content-CRC32").data, c ∈ "0123456789abcdef".data) ∧
    hexValue (req.Header.Get "Content-CRC32") = some (crc32Bitwise fileBytes) ∧
    req.Body = fileBytes ∧
    (fileBytes = helloBytes → req.Header.Get "Content-CRC32" = "3610a686") := by
  obtain ⟨addr, h, hs, s, ss, host, -, -, -, -, -, -, hreq, -⟩ :=
    Upload_put_mem d fileBytes spaceName req hput
  have hget : req.Header.Get "Content-CRC32" = sprintf08x (ChecksumIEEE fileBytes) := by
    rw [hreq]
    simp [expectedPut, Header.Get]
  obtain ⟨h1, h2, h3⟩ := sprintf08x_spec (ChecksumIEEE fileBytes)
  rw [hget]
  refine ⟨h1, h2, ?_, ?_, ?_⟩
  · rw [h3, ChecksumIEEE_eq_bitwise, Nat.mod_eq_of_lt (crc32Bitwise_lt fileBytes)]
  · rw [hreq]; rfl
  · intro hb
    subst hb
    decide

theorem Upload_content_crc32_witness :
    ("3610a686" : String).length = 8 ∧
    (∀ c ∈ ("3610a686" : String).data, c ∈ "0123456789abcdef".data) ∧
    hexValue "3610a686" = some (crc32Bitwise helloBytes) ∧
    (expectedPut helloBytes "h" (some ⟨"o123", "A1"⟩) "h").Body = helloBytes ∧
    (helloBytes = helloBytes → ("3610a686" : String) = "3610a686") :=
  Upload_content_crc32 (sampleDeps sampleAddress 200 0) helloBytes "space"
    (expectedPut helloBytes "h" (some ⟨"o123", "A1"⟩) "h") (by decide)

/-! ## The playback query -/

theorem string_length_pos_iff (s : String) : s.length > 0 ↔ s ≠ "" := by
  rw [gt_iff_lt, Nat.pos_iff_ne_zero]
  constructor
  · intro h he; subst he; exact h rfl
  · intro h he
    apply h
    apply String.ext
    exact List.length_eq_zero.mp he

theorem Values_Add_fresh (q : Values) (key value : String)
    (h : ∀ vs, (key, vs) ∉ q) : Values.Add q key value = q ++ [(key, [value])] := by
  induction q with
  | nil => rfl
  | cons e rest ih =>
    obtain ⟨k, vs⟩ := e
    have hk : k ≠ key := by
      intro hk
      exact h vs (by rw [hk]; exact List.mem_cons_self _ _)
    have hrest : ∀ vs, (key, vs) ∉ rest := fun vs hm => h vs (List.mem_cons_of_mem _ hm)
    simp [Values.Add, hk, ih hrest]

theorem addIfSet_fresh (q : Values) (key value : String) (h : ∀ vs, (key, vs) ∉ q) :
    addIfSet q key value = q ++ optEntry (decide (value ≠ "")) key value := by
  unfold addIfSet optEntry
  by_cases hv : value = ""
  · subst hv; simp
  · have hl : value.length > 0 := (string_length_pos_iff value).mpr hv
    simp [hl, hv, Values_Add_fresh q key value h]

theorem fresh_append (q1 q2 : Values) (key : String) (h1 : ∀ vs, (key, vs) ∉ q1)
    (h2 : ∀ vs, (key, vs) ∉ q2) : ∀ vs, (key, vs) ∉ q1 ++ q2 := by
  intro vs hm
  rcases List.mem_append.mp hm with h | h
  · exact h1 vs h
  · exact h2 vs h

theorem fresh_optEntry (c : Bool) (k v key : String) (hne : key ≠ k) :
    ∀ vs, (key, vs) ∉ optEntry c k v := by
  intro vs hm
  unfold optEntry at hm
  cases c <;> simp at hm
  exact hne hm.1

theorem fresh_single (k key : String) (vs0 : List String) (hne : key ≠ k) :
    ∀ vs, (key, vs) ∉ [(k, vs0)] := by
  intro vs hm
  simp at hm
  exact hne hm.1

theorem playInfoQuery_eq (req : Option VodGetPlayInfoRequest) (tokenExpireTime : Int) :
    playInfoQuery req tokenExpireTime = expectedQuery req tokenExpireTime := by
  unfold playInfoQuery expectedQuery
  simp only []
  rw [addIfSet_fresh _ "Definition" _ (fresh_single _ _ _ (by decide))]
  rw [addIfSet_fresh _ "FileType" _ (by
    repeat (first | exact fresh_single _ _ _ (by decide) | exact fresh_optEntry _ _ _ _ (by decide) | apply fresh_append))]
  rw [addIfSet_fresh _ "Codec" _ (by
    repeat (first | exact fresh_single _ _ _ (by decide) | exact fresh_optEntry _ _ _ _ (by decide) | apply fresh_append))]
  rw [addIfSet_fresh _ "Format" _ (by
    repeat (first | exact fresh_single _ _ _ (by decide) | exact fresh_optEntry _ _ _ _ (by decide) | apply fresh_append))]
  rw [addIfSet_fresh _ "Base64" _ (by
    repeat (first | exact fresh_single _ _ _ (by decide) | exact fresh_optEntry _ _ _ _ (by decide) | apply fresh_append))]
  rw [addIfSet_fresh _ "LogoType" _ (by
    repeat (first | exact fresh_single _ _ _ (by decide) | exact fresh_optEntry _ _ _ _ (by decide) | apply fresh_append))]
  rw [addIfSet_fresh _ "Ssl" _ (by
    repeat (first | exact fresh_single _ _ _ (by decide) | exact fresh_optEntry _ _ _ _ (by decide) | apply fresh_append))]
  by_cases ht : tokenExpireTime > 0
  · rw [if_pos ht, Values_Add_fresh _ "X-Expires" _ (by
      repeat (first | exact fresh_single _ _ _ (by decide) | exact fresh_optEntry _ _ _ _ (by decide) | apply fresh_append))]
    have hd : decide (0 < tokenExpireTime) = true := by simpa using ht
    rw [hd]
    rfl
  · rw [if_neg ht]
    have hd : decide (0 < tokenExpireTime) = false := by simpa using ht
    rw [hd]
    simp [optEntry]

theorem mem_optEntry (c : Bool) (key v k : String) (vs : List String) :
    (k, vs) ∈ optEntry c key v ↔ c = true ∧ k = key ∧ vs = [v] := by
  unfold optEntry
  cases c <;> simp

theorem keys_optEntry_sublist (c : Bool) (key v : String) :
    List.Sublist ((optEntry c key v).map Prod.fst) [key] := by
  unfold optEntry
  cases c <;> simp

theorem expectedQuery_keys_nodup (req : Option VodGetPlayInfoRequest) (tokenExpireTime : Int) :
    ((expectedQuery req tokenExpireTime).map Prod.fst).Nodup := by
  have hsub : List.Sublist ((expectedQuery req tokenExpireTime).map Prod.fst)
      (["Vid"] ++ ["Definition"] ++ ["FileType"] ++ ["Codec"] ++ ["Format"] ++ ["Base64"]
        ++ ["LogoType"] ++ ["Ssl"] ++ ["X-Expires"]) := by
    unfold expectedQuery
    simp only [List.map_append]
    repeat (first | exact keys_optEntry_sublist _ _ _ | exact List.Sublist.refl _ | apply List.Sublist.append)
  exact List.Nodup.sublist hsub (by decide)

/-! ### The decimal rendering of the expiry -/

theorem digitChar_spec (d : Nat) (hd : d < 10) :
    decDigitValue (Nat.digitChar d) = some d ∧ (0 < d → Nat.digitChar d ≠ '0') := by
  interval_cases d <;> decide

theorem decFold_append (v : Nat) (a b : List Char) :
    decFold v (a ++ b) = (decFold v a).bind (fun w => decFold w b) := by
  induction a generalizing v with
  | nil => rfl
  | cons c cs ih =>
    simp only [List.cons_append, decFold]
    cases decDigitValue c with
    | none => rfl
    | some x => exact ih _

theorem toDigitsCore_spec (fuel : Nat) : ∀ (n : Nat) (acc : List Char), n < fuel →
    ∃ ds, Nat.toDigitsCore 10 fuel n acc = ds ++ acc ∧
      (∀ v, decFold v ds = some (v * 10 ^ ds.length + n)) ∧
      (0 < n → ds.head? ≠ some '0') ∧ ds ≠ [] := by
  induction fuel with
  | zero => intro n acc h; omega
  | succ fuel ih =>
    intro n acc hn
    have hdig := digitChar_spec (n % 10) (Nat.mod_lt _ (by norm_num))
    unfold Nat.toDigitsCore
    simp only []
    by_cases h0 : n / 10 = 0
    · rw [if_pos h0]
      have hlt : n < 10 := by omega
      have hmod : n % 10 = n := Nat.mod_eq_of_lt hlt
      refine ⟨[Nat.digitChar (n % 10)], rfl, ?_, ?_, by simp⟩
      · intro v
        simp only [decFold, hdig.1, List.length_singleton, pow_one]
        rw [hmod]
      · intro hpos
        have := hdig.2 (by omega)
        simpa using this
    · rw [if_neg h0]
      have hlt : n / 10 < fuel := by omega
      obtain ⟨ds, hds, hval, hhead, hne⟩ := ih (n / 10) (Nat.digitChar (n % 10) :: acc) hlt
      refine ⟨ds ++ [Nat.digitChar (n % 10)], ?_, ?_, ?_, by simp⟩
      · rw [hds]; simp
      · intro v
        rw [decFold_append, hval]
        simp only [Option.some_bind, decFold, hdig.1, List.length_append,
          List.length_singleton]
        congr 1
        rw [Nat.pow_succ, ← Nat.mul_assoc, Nat.add_mul]
        generalize v * 10 ^ ds.length = q
        omega
      · intro _
        have hpos : 0 < n / 10 := Nat.pos_of_ne_zero h0
        cases ds with
        | nil => exact absurd rfl hne
        | cons c cs =>
          have := hhead hpos
          simpa using this

/-- The text `strconv.Itoa` gives for a positive number is its canonical decimal
numeral: it reads back as the number and has no leading zero. -/
theorem Itoa_decimal (t : Int) (ht : 0 < t) :
    decimalValue (Itoa t) = some t.toNat ∧ (Itoa t).data.head? ≠ some '0' := by
  cases t with
  | negSucc n => exact absurd ht (by simp [Int.negSucc_lt_zero])
  | ofNat n =>
    have hn : 0 < n := Int.ofNat_lt.mp ht
    obtain ⟨ds, hds, hval, hhead, -⟩ := toDigitsCore_spec (n + 1) n [] (by omega)
    rw [List.append_nil] at hds
    have hdata : (Itoa (Int.ofNat n)).data = ds := by
      show (Nat.repr n).data = ds
      unfold Nat.repr Nat.toDigits
      rw [hds]
      rfl
    refine ⟨?_, ?_⟩
    · rw [decimalValue, hdata, hval]
      simp
    · rw [hdata]
      exact hhead hn

/-- C9: for a request with a non-empty video id, `GetPlayAuthToken` calls the
signer once, for action `GetPlayInfo`, with a query whose keys are distinct and
whose entries are exactly `Vid` with the video id, each of `Definition`,
`FileType`, `Codec`, `Format`, `Base64`, `LogoType`, `Ssl` with its field when
the field is non-empty, and `X-Expires` with the decimal expiry when the expiry
is positive, every entry with a single value; with no optional field and a
non-positive expiry the query is the single entry `Vid`. With an empty video id
the signer is not called and an error is returned. The values are the fields of
the request itself, and the text of a positive expiry is its decimal numeral: it
reads back as the expiry and has no leading zero. -/
theorem GetPlayAuthToken_query (d : Deps) (req : Option VodGetPlayInfoRequest)
    (tokenExpireTime : Int) :
    (GetVid req ≠ "" →
      (GetPlayAuthToken d req tokenExpireTime).trace =
        [Event.sign "GetPlayInfo" (playInfoQuery req tokenExpireTime)] ∧
      ((playInfoQuery req tokenExpireTime).map Prod.fst).Nodup ∧
      (∀ k vs, (k, vs) ∈ playInfoQuery req tokenExpireTime ↔
        (k = "Vid" ∧ vs = [GetVid req]) ∨
        (GetDefinition req ≠ "" ∧ k = "Definition" ∧ vs = [GetDefinition req]) ∨
        (GetFileType req ≠ "" ∧ k = "FileType" ∧ vs = [GetFileType req]) ∨
        (GetCodec req ≠ "" ∧ k = "Codec" ∧ vs = [GetCodec req]) ∨
        (GetFormat req ≠ "" ∧ k = "Format" ∧ vs = [GetFormat req]) ∨
        (GetBase64 req ≠ "" ∧ k = "Base64" ∧ vs = [GetBase64 req]) ∨
        (GetLogoType req ≠ "" ∧ k = "LogoType" ∧ vs = [GetLogoType req]) ∨
        (GetSsl req ≠ "" ∧ k = "Ssl" ∧ vs = [GetSsl req]) ∨
        (0 < tokenExpireTime ∧ k = "X-Expires" ∧ vs = [Itoa tokenExpireTime])) ∧
      (GetDefinition req = "" → GetFileType req = "" → GetCodec req = "" →
        GetFormat req = "" → GetBase64 req = "" → GetLogoType req = "" → GetSsl req = "" →
        tokenExpireTime ≤ 0 →
        playInfoQuery req tokenExpireTime = [("Vid", [GetVid req])])) ∧
    (GetVid req = "" →
      GetPlayAuthToken d req tokenExpireTime =
        ⟨Exec.ret ("", some ⟨"传入的Vid为空"⟩), []⟩) ∧
    (∀ r, req = some r →
      GetVid req = r.Vid ∧ GetDefinition req = r.Definition ∧ GetFileType req = r.FileType ∧
      GetCodec req = r.Codec ∧ GetFormat req = r.Format ∧ GetBase64 req = r.Base64 ∧
      GetLogoType req = r.LogoType ∧ GetSsl req = r.Ssl) ∧
    (0 < tokenExpireTime →
      decimalValue (Itoa tokenExpireTime) = some tokenExpireTime.toNat ∧
      (Itoa tokenExpireTime).data.head? ≠ some '0') := by
  refine ⟨fun hvid => ⟨?_, ?_, ?_, ?_⟩, fun hvid => ?_, ?_, Itoa_decimal tokenExpireTime⟩
  · have hl : (GetVid req).length ≠ 0 := by
      have := (string_length_pos_iff (GetVid req)).mpr hvid
      omega
    unfold GetPlayAuthToken
    rw [if_neg hl]
    simp only []
    split <;> rfl
  · rw [playInfoQuery_eq]
    exact expectedQuery_keys_nodup req tokenExpireTime
  · intro k vs
    rw [playInfoQuery_eq]
    unfold expectedQuery
    simp only [List.mem_append, mem_optEntry, List.mem_singleton, Prod.mk.injEq,
      decide_eq_true_eq, or_assoc]
  · intro h1 h2 h3 h4 h5 h6 h7 ht
    rw [playInfoQuery_eq]
    have hd : decide (0 < tokenExpireTime) = false := by
      simp only [decide_eq_false_iff_not]; omega
    simp [expectedQuery, optEntry, h1, h2, h3, h4, h5, h6, h7, hd]
  · unfold GetPlayAuthToken
    rw [hvid]
    rfl
  · intro r hr
    subst hr
    exact ⟨rfl, rfl, rfl, rfl, rfl, rfl, rfl, rfl⟩

theorem GetPlayAuthToken_query_witness :
    ((GetPlayAuthToken (sampleDeps sampleAddress 200 0)
        (some ⟨"v1", "", "", "", "", "", "", ""⟩) 0).trace =
      [Event.sign "GetPlayInfo" (playInfoQuery (some ⟨"v1", "", "", "", "", "", "", ""⟩) 0)] ∧
    playInfoQuery (some ⟨"v1", "", "", "", "", "", "", ""⟩) 0 = [("Vid", ["v1"])] ∧
    GetPlayAuthToken (sampleDeps sampleAddress 200 0) none 5 =
      ⟨Exec.ret ("", some ⟨"传入的Vid为空"⟩), []⟩) ∧
    ((GetPlayAuthToken (sampleDeps sampleAddress 200 0) (some sampleRequest) 3600).trace =
      [Event.sign "GetPlayInfo"
        [("Vid", ["v1"]), ("Definition", ["720p"]), ("FileType", ["video"]),
         ("Codec", ["h264"]), ("Format", ["mp4"]), ("Base64", ["1"]),
         ("LogoType", ["mark"]), ("Ssl", ["1"]), ("X-Expires", ["3600"])]] ∧
    (("X-Expires", ["3600"]) ∈ playInfoQuery (some sampleRequest) 3600 ∧
     ("Definition", ["720p"]) ∈ playInfoQuery (some sampleRequest) 3600 ∧
     ("Ssl", ["1"]) ∈ playInfoQuery (some sampleRequest) 3600) ∧
    (decimalValue "3600" = some 3600 ∧ ("3600" : String).data.head? ≠ some '0')) :=
  ⟨⟨((GetPlayAuthToken_query (sampleDeps sampleAddress 200 0)
      (some ⟨"v1", "", "", "", "", "", "", ""⟩) 0).1 (by decide)).1,
    ((GetPlayAuthToken_query (sampleDeps sampleAddress 200 0)
      (some ⟨"v1", "", "", "", "", "", "", ""⟩) 0).1 (by decide)).2.2.2 rfl rfl rfl rfl rfl rfl
      rfl (by decide),
    (GetPlayAuthToken_query (sampleDeps sampleAddress 200 0) none 5).2.1 rfl⟩,
   ((GetPlayAuthToken_query (sampleDeps sampleAddress 200 0) (some sampleRequest) 3600).1
      (by decide)).1,
   ⟨(((GetPlayAuthToken_query (sampleDeps sampleAddress 200 0) (some sampleRequest) 3600).1
      (by decide)).2.2.1 "X-Expires" ["3600"]).mpr
      (Or.inr (Or.inr (Or.inr (Or.inr (Or.inr (Or.inr (Or.inr (Or.inr
        ⟨by decide, rfl, rfl⟩)))))))),
    (((GetPlayAuthToken_query (sampleDeps sampleAddress 200 0) (some sampleRequest) 3600).1
      (by decide)).2.2.1 "Definition" ["720p"]).mpr (Or.inr (Or.inl ⟨by decide, rfl, rfl⟩)),
    (((GetPlayAuthToken_query (sampleDeps sampleAddress 200 0) (some sampleRequest) 3600).1
      (by decide)).2.2.1 "Ssl" ["1"]).mpr
      (Or.inr (Or.inr (Or.inr (Or.inr (Or.inr (Or.inr (Or.inr (Or.inl
        ⟨by decide, rfl, rfl⟩))))))))⟩,
   (GetPlayAuthToken_query (sampleDeps sampleAddress 200 0) (some sampleRequest) 3600).2.2.2
      (by decide)⟩

/-! ## Round trip of the playback token -/

theorem encodeStd_spec (n : Nat) (hn : n < 64) :
    decodeStd (encodeStd n) = some n ∧ encodeStd n ≠ '=' := by
  interval_cases n <;> decide

theorem byteOfNat_eq (n : Nat) (b : Byte) (h : n = b.val) : byteOfNat n = b := by
  apply Fin.ext
  simp only [byteOfNat]
  rw [h]
  exact Nat.mod_eq_of_lt b.isLt

theorem base64Decode_encode (bs : List Byte) : base64Decode (base64Encode bs) = some bs := by
  induction bs using base64Encode.induct with
  | case1 => rfl
  | case2 a =>
    have ha := a.isLt
    obtain ⟨h0, -⟩ := encodeStd_spec (a.val * 65536 / 262144 % 64) (Nat.mod_lt _ (by norm_num))
    obtain ⟨h1, -⟩ := encodeStd_spec (a.val * 65536 / 4096 % 64) (Nat.mod_lt _ (by norm_num))
    simp only [base64Encode, base64Decode, h0, h1]
    simp only [true_and, if_true, Option.some.injEq, List.cons.injEq, and_true]
    exact byteOfNat_eq _ _ (by omega)
  | case3 a b =>
    have ha := a.isLt
    have hb := b.isLt
    obtain ⟨h0, -⟩ := encodeStd_spec ((a.val * 65536 + b.val * 256) / 262144 % 64)
      (Nat.mod_lt _ (by norm_num))
    obtain ⟨h1, -⟩ := encodeStd_spec ((a.val * 65536 + b.val * 256) / 4096 % 64)
      (Nat.mod_lt _ (by norm_num))
    obtain ⟨h2, n2⟩ := encodeStd_spec ((a.val * 65536 + b.val * 256) / 64 % 64)
      (Nat.mod_lt _ (by norm_num))
    simp only [base64Encode, base64Decode, h0, h1, h2, n2]
    simp only [if_false, if_true, Option.some.injEq, List.cons.injEq, and_true]
    exact ⟨byteOfNat_eq _ _ (by omega), byteOfNat_eq _ _ (by omega)⟩
  | case4 a b c rest ih =>
    have ha := a.isLt
    have hb := b.isLt
    have hc := c.isLt
    obtain ⟨h0, -⟩ := encodeStd_spec ((a.val * 65536 + b.val * 256 + c.val) / 262144 % 64)
      (Nat.mod_lt _ (by norm_num))
    obtain ⟨h1, -⟩ := encodeStd_spec ((a.val * 65536 + b.val * 256 + c.val) / 4096 % 64)
      (Nat.mod_lt _ (by norm_num))
    obtain ⟨h2, n2⟩ := encodeStd_spec ((a.val * 65536 + b.val * 256 + c.val) / 64 % 64)
      (Nat.mod_lt _ (by norm_num))
    obtain ⟨h3, n3⟩ := encodeStd_spec ((a.val * 65536 + b.val * 256 + c.val) % 64)
      (Nat.mod_lt _ (by norm_num))
    simp only [base64Encode, base64Decode, h0, h1, h2, h3, n2, n3, ih]
    simp only [if_false, Option.some.injEq, List.cons.injEq, and_true]
    exact ⟨byteOfNat_eq _ _ (by omega), byteOfNat_eq _ _ (by omega),
      byteOfNat_eq _ _ (by omega)⟩

theorem char_scalar (c : Char) :
    c.toNat < 0xD800 ∨ (0xDFFF < c.toNat ∧ c.toNat < 0x110000) := by
  have h := c.valid
  simp only [UInt32.isValidChar, Nat.isValidChar] at h
  exact h

theorem byteOfNat_val (n : Nat) (h : n < 256) : (byteOfNat n).val = n := by
  simp only [byteOfNat]
  exact Nat.mod_eq_of_lt h

theorem utf8DecodeChar_encodeChar (c : Char) (bs : List Byte) :
    utf8DecodeChar (utf8EncodeChar c ++ bs) = some (c, bs) := by
  have hv := char_scalar c
  have hc : Char.ofNat c.toNat = c := Char.ofNat_toNat c
  unfold utf8EncodeChar
  simp only []
  by_cases h1 : c.toNat < 0x80
  · rw [if_pos h1]
    have e0 := byteOfNat_val c.toNat (by omega)
    simp only [List.singleton_append, utf8DecodeChar, e0, if_pos h1, hc]
  · rw [if_neg h1]
    by_cases h2 : c.toNat < 0x800
    · rw [if_pos h2]
      have e0 := byteOfNat_val (0xC0 + c.toNat / 64) (by omega)
      have e1 := byteOfNat_val (0x80 + c.toNat % 64) (by omega)
      have hval : (0xC0 + c.toNat / 64 - 0xC0) * 64 + (0x80 + c.toNat % 64 - 0x80) = c.toNat := by
        omega
      have g1 : ¬ (0xC0 + c.toNat / 64 < 0x80) := by omega
      have g2 : ¬ (0xC0 + c.toNat / 64 < 0xC0) := by omega
      have g3 : 0xC0 + c.toNat / 64 < 0xE0 := by omega
      have g4 : 0x80 ≤ 0x80 + c.toNat % 64 ∧ 0x80 + c.toNat % 64 < 0xC0 := by omega
      have g5 : 0x80 ≤ c.toNat := by omega
      simp only [List.cons_append, List.nil_append, utf8DecodeChar, e0, e1, isContinuation,
        hval, if_neg g1, if_neg g2, if_pos g3, g4, g5, decide_True, and_self, if_true, hc]
    · rw [if_neg h2]
      by_cases h3 : c.toNat < 0x10000
      · rw [if_pos h3]
        have e0 := byteOfNat_val (0xE0 + c.toNat / 4096) (by omega)
        have e1 := byteOfNat_val (0x80 + c.toNat / 64 % 64) (by omega)
        have e2 := byteOfNat_val (0x80 + c.toNat % 64) (by omega)
        have hval : ((0xE0 + c.toNat / 4096 - 0xE0) * 64 + (0x80 + c.toNat / 64 % 64 - 0x80)) * 64
            + (0x80 + c.toNat % 64 - 0x80) = c.toNat := by omega
        have g1 : ¬ (0xE0 + c.toNat / 4096 < 0x80) := by omega
        have g2 : ¬ (0xE0 + c.toNat / 4096 < 0xC0) := by omega
        have g3 : ¬ (0xE0 + c.toNat / 4096 < 0xE0) := by omega
        have g4 : 0xE0 + c.toNat / 4096 < 0xF0 := by omega
        have g5 : 0x80 ≤ 0x80 + c.toNat / 64 % 64 ∧ 0x80 + c.toNat / 64 % 64 < 0xC0 := by omega
        have g6 : 0x80 ≤ 0x80 + c.toNat % 64 ∧ 0x80 + c.toNat % 64 < 0xC0 := by omega
        have g7 : 0x800 ≤ c.toNat := by omega
        simp only [List.cons_append, List.nil_append, utf8DecodeChar, e0, e1, e2,
          isContinuation, isScalar, hval, if_neg g1, if_neg g2, if_neg g3, if_pos g4, g5, g6,
          g7, hv, decide_True, and_self, if_true, hc]
      · rw [if_neg h3]
        have e0 := byteOfNat_val (0xF0 + c.toNat / 262144) (by omega)
        have e1 := byteOfNat_val (0x80 + c.toNat / 4096 % 64) (by omega)
        have e2 := byteOfNat_val (0x80 + c.toNat / 64 % 64) (by omega)
        have e3 := byteOfNat_val (0x80 + c.toNat % 64) (by omega)
        have hval : (((0xF0 + c.toNat / 262144 - 0xF0) * 64
            + (0x80 + c.toNat / 4096 % 64 - 0x80)) * 64 + (0x80 + c.toNat / 64 % 64 - 0x80)) * 64
            + (0x80 + c.toNat % 64 - 0x80) = c.toNat := by omega
        have g1 : ¬ (0xF0 + c.toNat / 262144 < 0x80) := by omega
        have g2 : ¬ (0xF0 + c.toNat / 262144 < 0xC0) := by omega
        have g3 : ¬ (0xF0 + c.toNat / 262144 < 0xE0) := by omega
        have g4 : ¬ (0xF0 + c.toNat / 262144 < 0xF0) := by omega
        have g5 : 0xF0 + c.toNat / 262144 < 0xF8 := by omega
        have g6 : 0x80 ≤ 0x80 + c.toNat / 4096 % 64 ∧ 0x80 + c.toNat / 4096 % 64 < 0xC0 := by
          omega
        have g7 : 0x80 ≤ 0x80 + c.toNat / 64 % 64 ∧ 0x80 + c.toNat / 64 % 64 < 0xC0 := by omega
        have g8 : 0x80 ≤ 0x80 + c.toNat % 64 ∧ 0x80 + c.toNat % 64 < 0xC0 := by omega
        have g9 : 0x10000 ≤ c.toNat := by omega
        simp only [List.cons_append, List.nil_append, utf8DecodeChar, e0, e1, e2, e3,
          isContinuation, isScalar, hval, if_neg g1, if_neg g2, if_neg g3, if_neg g4, if_pos g5,
          g6, g7, g8, g9, hv, decide_True, and_self, if_true, hc]

theorem utf8EncodeChar_ne_nil (c : Char) : ∃ b bs, utf8EncodeChar c = b :: bs := by
  unfold utf8EncodeChar
  simp only []
  split_ifs <;> exact ⟨_, _, rfl⟩

theorem utf8Encode_length (cs : List Char) : cs.length ≤ (utf8Encode cs).length := by
  induction cs with
  | nil => simp [utf8Encode]
  | cons c cs ih =>
    obtain ⟨b, bs, hb⟩ := utf8EncodeChar_ne_nil c
    simp only [utf8Encode, List.flatMap_cons, List.length_append, List.length_cons, hb] at ih ⊢
    omega

theorem utf8DecodeLoop_encode (cs : List Char) (fuel : Nat) (h : cs.length ≤ fuel) :
    utf8DecodeLoop fuel (utf8Encode cs) = some cs := by
  induction cs generalizing fuel with
  | nil => cases fuel <;> rfl
  | cons c cs ih =>
    obtain ⟨b, bs, hb⟩ := utf8EncodeChar_ne_nil c
    have hstep := utf8DecodeChar_encodeChar c (utf8Encode cs)
    cases fuel with
    | zero => simp at h
    | succ fuel =>
      have hlen : cs.length ≤ fuel := by simpa using h
      simp only [utf8Encode, List.flatMap_cons] at hstep ih ⊢
      rw [hb] at hstep ⊢
      rw [List.cons_append] at hstep ⊢
      rw [utf8DecodeLoop, hstep]
      simp only [ih fuel hlen, Option.map_some']

theorem utf8Decode_encode (cs : List Char) : utf8Decode (utf8Encode cs) = some cs :=
  utf8DecodeLoop_encode cs _ (utf8Encode_length cs)

theorem jsonHex_spec (d : Nat) (hd : d < 16) : jsonHexValue (jsonHex d) = some d := by
  interval_cases d <;> decide

theorem char_eq_of_toNat (c : Char) (n : Nat) (h : c.toNat = n) : c = Char.ofNat n := by
  rw [← h, Char.ofNat_toNat]

theorem parseStringElem_escape (c : Char) (tail : List Char) :
    parseStringElem (jsonEscapeChar c ++ tail) = some (some c, tail) := by
  have hc : Char.ofNat c.toNat = c := Char.ofNat_toNat c
  unfold jsonEscapeChar
  by_cases h1 : c = '"'
  · subst h1; rfl
  rw [if_neg h1]
  by_cases h2 : c = '\\'
  · subst h2; rfl
  rw [if_neg h2]
  by_cases h3 : c = '\n'
  · subst h3; rfl
  rw [if_neg h3]
  by_cases h4 : c = '\r'
  · subst h4; rfl
  rw [if_neg h4]
  by_cases h5 : c = '\t'
  · subst h5; rfl
  rw [if_neg h5]
  by_cases h6 : c.toNat < 0x20 ∨ c = '<' ∨ c = '>' ∨ c = '&'
  · rw [if_pos h6]
    have hn : c.toNat < 128 := by
      rcases h6 with h | h | h | h
      · omega
      · subst h; decide
      · subst h; decide
      · subst h; decide
    have e1 := jsonHex_spec (c.toNat / 16) (by omega)
    have e2 := jsonHex_spec (c.toNat % 16) (by omega)
    have e0 : jsonHexValue '0' = some 0 := by decide
    have hval : ((0 * 16 + 0) * 16 + c.toNat / 16) * 16 + c.toNat % 16 = c.toNat := by omega
    have hs : isScalar c.toNat = true := by
      simp only [isScalar, decide_eq_true_eq]; omega
    have b1 : ¬ ('\\' = '"') := by decide
    simp only [List.cons_append, List.nil_append, parseStringElem, if_neg b1, if_true, e0, e1,
      e2, hval, hs, hc]
  rw [if_neg h6]
  by_cases h7 : c.toNat = 0x2028 ∨ c.toNat = 0x2029
  · rw [if_pos h7]
    have e2 := jsonHex_spec (c.toNat % 16) (by omega)
    have e0 : jsonHexValue '0' = some 0 := by decide
    have e3 : jsonHexValue '2' = some 2 := by decide
    have hval : ((2 * 16 + 0) * 16 + 2) * 16 + c.toNat % 16 = c.toNat := by omega
    have hs : isScalar c.toNat = true := by
      simp only [isScalar, decide_eq_true_eq]; omega
    have b1 : ¬ ('\\' = '"') := by decide
    simp only [List.cons_append, List.nil_append, parseStringElem, if_neg b1, if_true, e0, e2,
      e3, hval, hs, hc]
  rw [if_neg h7]
  have h8 : ¬ c.toNat < 0x20 := fun h => h6 (Or.inl h)
  simp only [List.cons_append, List.nil_append, parseStringElem, if_neg h1, if_neg h2,
    if_neg h8]

theorem jsonEscapeChar_ne_nil (c : Char) : ∃ x xs, jsonEscapeChar c = x :: xs := by
  unfold jsonEscapeChar
  split_ifs <;> exact ⟨_, _, rfl⟩

theorem jsonEscape_length (s : List Char) : s.length ≤ (s.flatMap jsonEscapeChar).length := by
  induction s with
  | nil => simp
  | cons c s ih =>
    obtain ⟨x, xs, hx⟩ := jsonEscapeChar_ne_nil c
    simp only [List.flatMap_cons, List.length_append, List.length_cons, hx]
    omega

theorem parseStringLoop_escape (s : List Char) (fuel : Nat) (tail : List Char)
    (h : s.length + 1 ≤ fuel) :
    parseStringLoop fuel (s.flatMap jsonEscapeChar ++ '"' :: tail) = some (s, tail) := by
  induction s generalizing fuel with
  | nil =>
    cases fuel with
    | zero => simp at h
    | succ fuel => rfl
  | cons c s ih =>
    cases fuel with
    | zero => simp at h
    | succ fuel =>
      have hlen : s.length + 1 ≤ fuel := by simpa using h
      rw [List.flatMap_cons, List.append_assoc, parseStringLoop, parseStringElem_escape]
      simp only [ih fuel hlen, Option.map_some']

theorem parseStringBody_escape (s : List Char) (tail : List Char) :
    parseStringBody (s.flatMap jsonEscapeChar ++ '"' :: tail) = some (s, tail) := by
  unfold parseStringBody
  apply parseStringLoop_escape
  have := jsonEscape_length s
  simp only [List.length_append, List.length_cons]
  omega

theorem skipSpace_cons (c : Char) (cs : List Char) (h : isJsonSpace c = false) :
    skipSpace (c :: cs) = c :: cs := by
  simp [skipSpace, List.dropWhile, h]

theorem parseString_jsonString (s : String) (tail : List Char) :
    parseString (jsonString s ++ tail) = some (s, tail) := by
  have hl : jsonString s ++ tail = '"' :: (s.data.flatMap jsonEscapeChar ++ '"' :: tail) := by
    simp [jsonString]
  unfold parseString
  rw [hl, skipSpace_cons '"' _ (by decide)]
  simp only [if_true, parseStringBody_escape, Option.map_some']

theorem jsonString_cons (s : String) : ∃ r, jsonString s = '"' :: r :=
  ⟨_, rfl⟩

theorem jsonMembers_cons (e : String × String) (es : List (String × String)) :
    ∃ r, jsonMembers (e :: es) = '"' :: r := by
  cases es with
  | nil => exact ⟨_, rfl⟩
  | cons e1 es => exact ⟨_, rfl⟩

theorem parseMembers_jsonMembers (e : String × String) (es : List (String × String))
    (fuel : Nat) (tail : List Char) (h : es.length + 1 ≤ fuel) :
    parseMembers fuel (jsonMembers (e :: es) ++ '}' :: tail) = some (e :: es, tail) := by
  induction es generalizing e fuel with
  | nil =>
    cases fuel with
    | zero => simp at h
    | succ fuel =>
      have h1 : jsonMembers [e] ++ '}' :: tail =
          jsonString e.1 ++ (':' :: (jsonString e.2 ++ '}' :: tail)) := by
        simp [jsonMembers]
      rw [h1, parseMembers, parseString_jsonString]
      simp only [skipSpace_cons ':' _ (by decide), if_true, parseString_jsonString,
        skipSpace_cons '}' _ (by decide)]
      rfl
  | cons e1 es ih =>
    cases fuel with
    | zero => simp at h
    | succ fuel =>
      have hlen : es.length + 1 ≤ fuel := by simpa using h
      have h1 : jsonMembers (e :: e1 :: es) ++ '}' :: tail =
          jsonString e.1 ++ (':' :: (jsonString e.2 ++
            (',' :: (jsonMembers (e1 :: es) ++ '}' :: tail)))) := by
        simp [jsonMembers]
      rw [h1, parseMembers, parseString_jsonString]
      simp only [skipSpace_cons ':' _ (by decide), if_true, parseString_jsonString,
        skipSpace_cons ',' _ (by decide), ih e1 fuel hlen, Option.map_some']

theorem jsonMembers_length (ms : List (String × String)) :
    ms.length ≤ (jsonMembers ms).length := by
  induction ms with
  | nil => simp
  | cons e es ih =>
    cases es with
    | nil => simp [jsonMembers, jsonString]
    | cons e1 es =>
      simp only [jsonMembers, List.length_append, List.length_cons] at ih ⊢
      omega

theorem parseStringObject_members (e : String × String) (es : List (String × String)) :
    parseStringObject ('{' :: jsonMembers (e :: es) ++ ['}']) = some (e :: es) := by
  obtain ⟨r, hr⟩ := jsonMembers_cons e es
  have hp := parseMembers_jsonMembers e es
    ('{' :: jsonMembers (e :: es) ++ ['}']).length [] (by
      have := jsonMembers_length (e :: es)
      simp only [List.length_append, List.length_cons, List.length_nil] at this ⊢
      omega)
  unfold parseStringObject
  rw [List.cons_append, skipSpace_cons '{' _ (by decide)]
  simp only [if_true]
  rw [hr] at hp ⊢
  rw [List.cons_append] at hp ⊢
  rw [skipSpace_cons '"' _ (by decide)]
  have hne : ¬ ('"' = '}') := by decide
  simp only [if_neg hne]
  rw [List.cons_append] at hp
  rw [hp]
  simp [skipSpace]

theorem tokenMap_sorted (u : String) :
    sortByKey (mapSet (mapSet [] "GetPlayInfoToken" u) "TokenVersion" "V2") =
      [("GetPlayInfoToken", u), ("TokenVersion", "V2")] := by
  have hlt : "GetPlayInfoToken".data < "TokenVersion".data := by decide
  have hne : ¬ ("GetPlayInfoToken" = "TokenVersion") := by decide
  simp only [mapSet, if_neg hne, sortByKey, List.foldr, insertByKey, if_pos hlt]

theorem readToken_marshal (u : String) :
    readToken (String.mk (base64Encode (utf8Encode
      (jsonMarshalMap (mapSet (mapSet [] "GetPlayInfoToken" u) "TokenVersion" "V2"))))) =
      some [("GetPlayInfoToken", u), ("TokenVersion", "V2")] := by
  unfold readToken
  simp only [base64Decode_encode, utf8Decode_encode, jsonMarshalMap, tokenMap_sorted]
  exact parseStringObject_members _ _

/-- C10: for a request with a non-empty video id, when the signer returns the
URL `u` without error the returned token, decoded from standard base64, read
as UTF-8 and parsed as JSON, is the object with exactly the members
`GetPlayInfoToken` = `u` and `TokenVersion` = "V2"; when the signer returns an
error, the token is empty and that error is returned. -/
theorem GetPlayAuthToken_round_trip (d : Deps) (req : Option VodGetPlayInfoRequest)
    (tokenExpireTime : Int) (hvid : GetVid req ≠ "") :
    (∀ u, d.GetSignUrl "GetPlayInfo" (playInfoQuery req tokenExpireTime) = (u, none) →
      ∃ token, (GetPlayAuthToken d req tokenExpireTime).out = Exec.ret (token, none) ∧
        readToken token = some [("GetPlayInfoToken", u), ("TokenVersion", "V2")]) ∧
    (∀ x err, d.GetSignUrl "GetPlayInfo" (playInfoQuery req tokenExpireTime) = (x, some err) →
      (GetPlayAuthToken d req tokenExpireTime).out = Exec.ret ("", some err)) := by
  have hl : (GetVid req).length ≠ 0 := by
    have := (string_length_pos_iff (GetVid req)).mpr hvid
    omega
  refine ⟨fun u hu => ?_, fun x err he => ?_⟩
  · refine ⟨String.mk (base64Encode (utf8Encode
      (jsonMarshalMap (mapSet (mapSet [] "GetPlayInfoToken" u) "TokenVersion" "V2")))),
      ?_, readToken_marshal u⟩
    unfold GetPlayAuthToken
    rw [if_neg hl]
    simp only [hu]
  · unfold GetPlayAuthToken
    rw [if_neg hl]
    simp only [he]

theorem GetPlayAuthToken_round_trip_witness :
    ∃ token, (GetPlayAuthToken (sampleDeps sampleAddress 200 0)
        (some ⟨"v1", "", "", "", "", "", "", ""⟩) 0).out = Exec.ret (token, none) ∧
      readToken token =
        some [("GetPlayInfoToken", "https://vod.example/?Action=GetPlayInfo&X-Signature=ab"),
              ("TokenVersion", "V2")] :=
  (GetPlayAuthToken_round_trip (sampleDeps sampleAddress 200 0)
    (some ⟨"v1", "", "", "", "", "", "", ""⟩) 0 (by decide)).1
    "https://vod.example/?Action=GetPlayInfo&X-Signature=ab" rfl

end Vod
